import Mathlib

/-!
# BotSupervisor (src/bot_supervisor.js)

A shallow embedding of the `BotSupervisor` class: the in-memory registry
`this.managedBots` (a JavaScript `Map`), the registry document
`managed_bots.json`, and the operations `loadManagedBots`, `saveManagedBots`,
`createBot`, `startBot`, `stopBot`, `handleStopAllBots` and the command
dispatcher `handleMessage`.

Conventions of the embedding.

* An `async` method is a state transformer `M`: it takes the state before the
  call and gives a completion (returned normally, or threw an error) together
  with the state after the call.  A thrown error does not undo assignments
  that were made before it, exactly as in JavaScript.
* Calls that leave the program (`fs.*`, `child_process.spawn`,
  `message.reply`) are recorded in a trace.  Whether such a call succeeds is
  not decided by the program; it is read from `Env`, which gives the outcome
  of each external call of one run.
* The functions of Node's `path` module and `process.platform` are parameters
  (`Host`); `posixHost` is the instance for a POSIX host.
-/

set_option autoImplicit false

namespace BotSupervisor

/-! ## Data model -/

/-- The `status` field of a record: the string literals `'stopped'` and
`'running'`, the only two values the program ever writes. -/
inductive Status where
  | stopped
  | running
deriving DecidableEq, Repr

/-- One value of `this.managedBots`: `{ token, status, filePath }`.
`filePath` is `none` when the property is absent (`undefined`), which the
source allows for on line 59 (`info.filePath ? ... : info.filePath`). -/
structure BotInfo where
  token : String
  status : Status
  filePath : Option String
deriving DecidableEq, Repr

/-- The entries of a JavaScript `Map` (or the members of an object), in
iteration order. -/
abbrev Entries := List (String × BotInfo)

/-- The method `Map.prototype.get`. -/
def mapGet (m : Entries) (key : String) : Option BotInfo :=
  match m with
  | [] => none
  | (k, v) :: rest => if k = key then some v else mapGet rest key

/-- The method `Map.prototype.has`. -/
def mapHas (m : Entries) (key : String) : Bool :=
  (mapGet m key).isSome

/-- The method `Map.prototype.set`: an existing key keeps its place and takes the new
value, a new key is appended. -/
def mapSet (m : Entries) (key : String) (value : BotInfo) : Entries :=
  match m with
  | [] => [(key, value)]
  | (k, v) :: rest => if k = key then (key, value) :: rest else (k, v) :: mapSet rest key value

/-- The constructor `new Map(entries)`: the entries are set one after the other. -/
def newMap (entries : Entries) : Entries :=
  entries.foldl (fun m e => mapSet m e.1 e.2) []

/-- Assignment `bot.status = s` on the record object returned by
`this.managedBots.get(key)`: the first entry with that key is mutated in
place. -/
def assignStatus (m : Entries) (key : String) (s : Status) : Entries :=
  match m with
  | [] => []
  | (k, v) :: rest =>
    if k = key then (k, { v with status := s }) :: rest else (k, v) :: assignStatus rest key s

/-- The loop of lines 146-148: every record that was selected by the filter
`info.status === 'running'` gets `info.status = 'stopped'`. -/
def stopRunning (m : Entries) : Entries :=
  m.map (fun e => if e.2.status = Status.running then (e.1, { e.2 with status := Status.stopped }) else e)

/-! ## JavaScript objects: property order -/

/-- The numeric value of a property key that is an array index (a canonical
decimal numeral below `2^32 - 1`), `none` for every other key. -/
def arrayIndex? (key : String) : Option Nat :=
  let cs := key.toList
  if cs = [] then none
  else if !(cs.all Char.isDigit) then none
  else if cs.head? = some '0' ∧ 1 < cs.length then none
  else
    let n := cs.foldl (fun acc c => 10 * acc + (c.toNat - 48)) 0
    if n < 4294967295 then some n else none

/-- Whether the key of an entry is an array index. -/
def isIndexEntry (e : String × BotInfo) : Bool :=
  (arrayIndex? e.1).isSome

/-- The array index of an entry (0 when its key is not one). -/
def indexOf (e : String × BotInfo) : Nat :=
  (arrayIndex? e.1).getD 0

/-- Entries ordered by array index. -/
def indexLE (a b : String × BotInfo) : Prop :=
  indexOf a ≤ indexOf b

instance indexLE_decidable : DecidableRel indexLE :=
  fun a b => inferInstanceAs (Decidable (indexOf a ≤ indexOf b))

instance indexLE_total : IsTotal (String × BotInfo) indexLE :=
  ⟨fun a b => Nat.le_total (indexOf a) (indexOf b)⟩

instance indexLE_trans : IsTrans (String × BotInfo) indexLE :=
  ⟨fun _ _ _ hab hbc => Nat.le_trans hab hbc⟩

/-- Own-property order of an ordinary object (OrdinaryOwnPropertyKeys): the
array-index keys in ascending numeric order, then the other string keys in
the order in which they were created. -/
def objectOrder (members : Entries) : Entries :=
  (members.filter isIndexEntry).insertionSort indexLE ++ members.filter (fun e => !isIndexEntry e)

/-- The object built by defining the members one after the other
(`Object.fromEntries`, and `JSON.parse` of an object literal): a repeated key
keeps its first place and takes the last value; the result is listed in
property order. -/
def makeObject (members : Entries) : Entries :=
  objectOrder (newMap members)

/-- The call `replace` of lines 59, 80 and 313, with the pattern that matches
every backslash: every backslash (code 92) becomes a forward slash (code
47). -/
def normalizeSlashes (p : String) : String :=
  String.mk (p.toList.map (fun c => if c = Char.ofNat 92 then Char.ofNat 47 else c))

/-! ## Errors, external calls, state -/

/-- The errors the program throws or receives.  Each constructor of the
program's own errors is tagged with the source line of its `new Error`. -/
inductive JsError where
  /-- A rejection coming from outside the program (`fs`, Discord), with its
  `code` property. -/
  | external (code : String)
  /-- TypeError: a property of `undefined` or `null` was read. -/
  | typeError (reading : String)
  /-- ReferenceError: the identifier is not defined. -/
  | referenceError (identifier : String)
  /-- Line 68: failed to load managed bots. -/
  | loadFailed (cause : JsError)
  /-- Line 86: failed to save managed bots. -/
  | saveFailed (cause : JsError)
  /-- Line 127: administrator permission needed (stop_all). -/
  | stopAllNeedsAdmin
  /-- Line 153: stopping the bots failed. -/
  | stopAllFailed (cause : JsError)
  /-- Lines 216, 229, 242, 442: administrator permission needed. -/
  | needsAdmin
  /-- Line 221: please provide both bot name and token. -/
  | nameAndTokenRequired
  /-- Lines 234, 247, 447: please provide the bot name. -/
  | nameRequired
  /-- Line 267: the bot already exists. -/
  | alreadyExists (botName : String)
  /-- Line 298: creating the bot from the template failed. -/
  | createFailed (cause : JsError)
  /-- Line 305: the bot does not exist (start). -/
  | startNotFound (botName : String)
  /-- Line 309: the bot is already running. -/
  | alreadyRunning (botName : String)
  /-- Line 322: package.json is missing in the directory. -/
  | manifestMissing (botDir : String)
  /-- Line 336: npm install closed with a code other than 0 (`none` is the
  code `null` of a process ended by a signal). -/
  | npmInstallFailed (code : Option Nat)
  /-- Line 340: the npm process emitted `error`. -/
  | npmSpawnFailed (cause : JsError)
  /-- Line 361: starting the bot failed. -/
  | startFailed (botName : String) (cause : JsError)
  /-- Line 456: the bot does not exist (stop). -/
  | stopNotFound (botName : String)
  /-- Line 460: the bot is not running. -/
  | notRunning (botName : String)
  /-- Line 474: stopping the bot failed. -/
  | stopFailed (botName : String) (cause : JsError)
deriving DecidableEq, Repr

/-- The `code` property of an error (`undefined` for the errors the program
and the language create). -/
def JsError.code? (e : JsError) : Option String :=
  match e with
  | JsError.external code => some code
  | _ => none

/-- What is written to a file. -/
inductive Content where
  /-- Line 281: the text `// Bot entry point for az`. -/
  | scaffold
  /-- Line 287: the configuration document with `config.token = token`. -/
  | config (token : String)
  /-- Line 84: the registry document, its members in order. -/
  | registry (doc : Entries)
deriving DecidableEq, Repr

/-- The texts sent with `message.reply`, by source line. -/
inductive Reply where
  /-- Line 117. -/
  | unknownCommand
  /-- Line 121. -/
  | failed (error : JsError)
  /-- Line 134. -/
  | noneRunning
  /-- Line 151. -/
  | stoppedAll (count : Nat)
  /-- Lines 195 and 203, for the lower-cased first argument. -/
  | help (topic : Option String)
  /-- Line 258: one line per bot, or the text for an empty registry. -/
  | botList (lines : List (String × Status))
  /-- Line 296. -/
  | created (botName : String)
  /-- Line 359. -/
  | started (botName : String)
  /-- Line 472. -/
  | stopped (botName : String)
deriving DecidableEq, Repr

/-- A call that leaves the program. -/
inductive Call where
  | cp (src dst : String)
  | mkdir (dir : String)
  | writeFile (path : String) (content : Content)
  | readFile (path : String)
  | access (path : String)
  | spawn (command : String) (args : List String) (cwd : Option String) (nodeEnv : Option String)
  | reply (text : Reply)
deriving DecidableEq, Repr

/-- One entry of the trace of a run. -/
inductive Event where
  /-- An external call and whether it succeeded. -/
  | call (c : Call) (ok : Bool)
  /-- The method `saveManagedBots` was entered. -/
  | saveInvoked
deriving DecidableEq, Repr

/-- How the `npm install` child process ends: a `close` event with an exit
code (`none` for `null`), or an `error` event. -/
inductive NpmOutcome where
  | close (code : Option Nat)
  | error (e : JsError)
deriving DecidableEq, Repr

/-- The outcome of each external call of one run: `none` when the call
succeeds, `some e` when it rejects with `e`. -/
structure Env where
  cp : Option JsError
  mkdir : Option JsError
  writeScaffold : Option JsError
  /-- Line 285: `fs.readFile(configPath)`, `JSON.parse` and the assignment of
  `config.token`. -/
  readConfig : Option JsError
  writeConfig : Option JsError
  /-- Line 84: `fs.writeFile('managed_bots.json', ...)`. -/
  writeRegistry : Option JsError
  /-- Lines 52-53: a failure of `fs.readFile('managed_bots.json')` or of
  `JSON.parse` other than the file being absent. -/
  readRegistry : Option JsError
  /-- Line 320: `fs.access(packageJsonPath)`. -/
  access : Option JsError
  npm : NpmOutcome
  /-- The `message.reply` of an operation. -/
  reply : Option JsError
  /-- Line 121: the `message.reply` in the `catch` of `handleMessage`. -/
  replyFailure : Option JsError

/-- The host: Node's `path.join` and `path.dirname`, and whether
`process.platform === 'win32'`. -/
structure Host where
  join : List String → String
  dirname : String → String
  win32 : Bool

/-- The state of the supervisor and of its surroundings. -/
structure St where
  /-- The Map `this.managedBots`. -/
  managedBots : Entries
  /-- The members of the document in `managed_bots.json`, `none` when the
  file does not exist. -/
  disk : Option Entries
  /-- The external calls made so far, oldest first. -/
  trace : List Event
deriving DecidableEq, Repr

/-- How a call ends. -/
inductive Completion (α : Type) where
  | returned (value : α)
  | threw (error : JsError)
deriving DecidableEq, Repr

/-- An `async` method: from the state before to a completion and the state
after. -/
def M (α : Type) : Type := St → Completion α × St

/-- Return normally. -/
def M.ret {α : Type} (a : α) : M α :=
  fun s => (Completion.returned a, s)

/-- Sequencing (`await`): a throw ends the sequence and keeps the state. -/
def M.andThen {α β : Type} (x : M α) (f : α → M β) : M β :=
  fun s =>
    match x s with
    | (Completion.returned a, s1) => f a s1
    | (Completion.threw e, s1) => (Completion.threw e, s1)

instance : Monad M where
  pure := M.ret
  bind := M.andThen

/-- The statement `throw e`. -/
def raise {α : Type} (e : JsError) : M α :=
  fun s => (Completion.threw e, s)

/-- The statement `try { body } catch (error) { handler }`. -/
def tryCatchM {α : Type} (body : M α) (handler : JsError → M α) : M α :=
  fun s =>
    match body s with
    | (Completion.returned a, s1) => (Completion.returned a, s1)
    | (Completion.threw e, s1) => handler e s1

/-- Read `this.managedBots`. -/
def getBots : M Entries :=
  fun s => (Completion.returned s.managedBots, s)

/-- Replace the contents of `this.managedBots`. -/
def setBots (m : Entries) : M Unit :=
  fun s => (Completion.returned (), { s with managedBots := m })

/-- Append an event to the trace. -/
def record (e : Event) : M Unit :=
  fun s => (Completion.returned (), { s with trace := s.trace ++ [e] })

/-- An external call with the outcome the environment gives it. -/
def perform (c : Call) (outcome : Option JsError) : M Unit :=
  match outcome with
  | none => record (Event.call c true)
  | some e => do
    record (Event.call c false)
    raise e

/-- The call `message.reply(text)`. -/
def reply (env : Env) (text : Reply) : M Unit :=
  perform (Call.reply text) env.reply

/-! ## Registry store (lines 50-88) -/

/-- Lines 76-82: the `map` over the entries of `this.managedBots`; reading
`.replace` of an absent `filePath` throws a TypeError (`none`). -/
def saveRecords (m : Entries) : Option Entries :=
  match m with
  | [] => some []
  | (name, info) :: rest =>
    match info.filePath with
    | none => none
    | some p =>
      (saveRecords rest).map (fun r => (name, { info with filePath := some (normalizeSlashes p) }) :: r)

/-- Line 84: `fs.writeFile('managed_bots.json', JSON.stringify(data, null, 2))`.
On success the file holds the members of `data`. -/
def writeRegistry (env : Env) (data : Entries) : M Unit := do
  perform (Call.writeFile "managed_bots.json" (Content.registry data)) env.writeRegistry
  fun s => (Completion.returned (), { s with disk := some data })

/-- Lines 73-88: `saveManagedBots`. -/
def saveManagedBots (env : Env) : M Unit :=
  tryCatchM
    (do
      record Event.saveInvoked
      let bots ← getBots
      match saveRecords bots with
      | none => raise (JsError.typeError "replace")
      | some mapped => writeRegistry env (makeObject mapped))
    (fun error => raise (JsError.saveFailed error))

/-- Lines 52-53: `JSON.parse(await fs.readFile('managed_bots.json'))`.  An
absent file rejects with code `ENOENT`. -/
def readRegistry (env : Env) : M Entries :=
  fun s =>
    match env.readRegistry with
    | some e =>
      (Completion.threw e,
        { s with trace := s.trace ++ [Event.call (Call.readFile "managed_bots.json") false] })
    | none =>
      match s.disk with
      | none =>
        (Completion.threw (JsError.external "ENOENT"),
          { s with trace := s.trace ++ [Event.call (Call.readFile "managed_bots.json") false] })
      | some members =>
        (Completion.returned (makeObject members),
          { s with trace := s.trace ++ [Event.call (Call.readFile "managed_bots.json") true] })

/-- Line 59: the conditional on `info.filePath`: a truthy path has its
backslashes replaced, a falsy one (absent, or the empty string) is kept as it
is. -/
def loadPath (filePath : Option String) : Option String :=
  match filePath with
  | none => none
  | some p => if p = "" then some p else some (normalizeSlashes p)

/-- Lines 50-71: `loadManagedBots`. -/
def loadManagedBots (env : Env) : M Unit :=
  tryCatchM
    (do
      let parsedData ← readRegistry env
      let normalizedEntries :=
        parsedData.map (fun e => (e.1, { e.2 with filePath := loadPath e.2.filePath }))
      setBots (newMap normalizedEntries))
    (fun error =>
      if error.code? = some "ENOENT" then do
        setBots []
        saveManagedBots env
      else raise (JsError.loadFailed error))

/-! ## Provisioner, launcher, terminator (lines 125-155, 265-363, 453-476) -/

/-- A spawned child process is created without waiting for it;
`child_process.spawn` reports a failed launch through the `error` event of
the child, not by throwing, so the call itself returns. -/
def spawn (command : String) (args : List String) (cwd : Option String) (nodeEnv : Option String) : M Unit :=
  record (Event.call (Call.spawn command args cwd nodeEnv) true)

/-- Lines 140-143 and 465-468: the kill command for every process of the
runtime, `taskkill /F /IM node.exe` on win32 and `pkill -f node` elsewhere. -/
def spawnKill (h : Host) : M Unit :=
  if h.win32 then spawn "taskkill" ["/F", "/IM", "node.exe"] none none
  else spawn "pkill" ["-f", "node"] none none

/-- Lines 265-300: `createBot`. -/
def createBot (h : Host) (env : Env) (botName token : String) : M Unit := do
  let bots ← getBots
  if mapHas bots botName then
    raise (JsError.alreadyExists botName)
  else
    let botDir := h.join ["bots", botName]
    let sourceDir := h.join ["bots", "az"]
    let azBotsDir := h.join ["bots", "az", "bots"]
    let azBotsFile := h.join [azBotsDir, "index.js"]
    tryCatchM
      (do
        perform (Call.cp sourceDir botDir) env.cp
        perform (Call.mkdir azBotsDir) env.mkdir
        perform (Call.writeFile azBotsFile Content.scaffold) env.writeScaffold
        let configPath := h.join [botDir, "config.json"]
        perform (Call.readFile configPath) env.readConfig
        perform (Call.writeFile configPath (Content.config token)) env.writeConfig
        let bots ← getBots
        setBots (mapSet bots botName
          { token := token, status := Status.stopped, filePath := some (h.join [botDir, "index.js"]) })
        saveManagedBots env
        reply env (Reply.created botName))
      (fun error => raise (JsError.createFailed error))

/-- Lines 326-342: the promise around `npm install`; it resolves on `close`
with code 0 and rejects otherwise. -/
def npmInstall (env : Env) (botDir : String) : M Unit := do
  spawn "npm" ["install", "--legacy-peer-deps", "--force"] (some botDir) (some "development")
  match env.npm with
  | NpmOutcome.close (some 0) => pure ()
  | NpmOutcome.close code => raise (JsError.npmInstallFailed code)
  | NpmOutcome.error e => raise (JsError.npmSpawnFailed e)

/-- Lines 302-363: `startBot`. -/
def startBot (h : Host) (env : Env) (botName : String) : M Unit := do
  let bots ← getBots
  match mapGet bots botName with
  | none => raise (JsError.startNotFound botName)
  | some bot =>
    if bot.status = Status.running then
      raise (JsError.alreadyRunning botName)
    else
      match bot.filePath with
      | none => raise (JsError.typeError "replace")
      | some filePath =>
        let normalizedFilePath := normalizeSlashes filePath
        let botDir := h.dirname normalizedFilePath
        tryCatchM
          (do
            let packageJsonPath := h.join [botDir, "package.json"]
            tryCatchM
              (perform (Call.access packageJsonPath) env.access)
              (fun _ => raise (JsError.manifestMissing botDir))
            npmInstall env botDir
            spawn "node" [normalizedFilePath] (some botDir) (some "production")
            let bots ← getBots
            setBots (assignStatus bots botName Status.running)
            saveManagedBots env
            reply env (Reply.started botName))
          (fun error => raise (JsError.startFailed botName error))

/-- Lines 453-476: `stopBot`. -/
def stopBot (h : Host) (env : Env) (botName : String) : M Unit := do
  let bots ← getBots
  match mapGet bots botName with
  | none => raise (JsError.stopNotFound botName)
  | some bot =>
    if bot.status ≠ Status.running then
      raise (JsError.notRunning botName)
    else
      tryCatchM
        (do
          spawnKill h
          let bots ← getBots
          setBots (assignStatus bots botName Status.stopped)
          saveManagedBots env
          reply env (Reply.stopped botName))
        (fun error => raise (JsError.stopFailed botName error))

/-! ## Command front end (lines 90-123, 125-263, 440-451) -/

/-- A Discord message, as far as the supervisor reads it. -/
structure Message where
  /-- The text `message.content`. -/
  content : String
  /-- The flag `message.author.bot`. -/
  authorBot : Bool
  /-- The member `message.member`: `none` for `null` (a message outside a
  guild), otherwise whether `permissions.has(0x8)` holds. -/
  member : Option Bool

/-- The expression `message.member.permissions.has(0x8)`; reading
`permissions` of `null` throws a TypeError. -/
def hasAdministrator (message : Message) : M Bool :=
  match message.member with
  | none => raise (JsError.typeError "permissions")
  | some admin => pure admin

/-- Lines 125-155: `handleStopAllBots`. -/
def handleStopAllBots (h : Host) (env : Env) (message : Message) : M Unit := do
  let admin ← hasAdministrator message
  if !admin then
    raise JsError.stopAllNeedsAdmin
  else
    let bots ← getBots
    let runningBots := bots.filter (fun e => e.2.status = Status.running)
    if runningBots.length = 0 then
      reply env Reply.noneRunning
    else
      tryCatchM
        (do
          spawnKill h
          let bots ← getBots
          setBots (stopRunning bots)
          saveManagedBots env
          reply env (Reply.stoppedAll runningBots.length))
        (fun error => raise (JsError.stopAllFailed error))

/-- The identifiers bound where the methods run: the `require` bindings of
lines 1-4, the class of line 6, the bindings Node gives every module, and the
globals the source uses.  `PermissionFlagBits` (line 441) is declared nowhere
in the file and is not a global. -/
def moduleBindings : List String :=
  ["Client", "Intents", "fs", "path", "spawn", "BotSupervisor",
   "require", "module", "exports", "__filename", "__dirname", "process", "console"]

/-- Evaluation of an identifier: a ReferenceError when it is not bound. -/
def resolveIdentifier (name : String) : M Unit :=
  if name ∈ moduleBindings then pure () else raise (JsError.referenceError name)

/-- JavaScript truthiness of an optional string (`!x` is true for `undefined`
and for the empty string). -/
def truthy (x : Option String) : Bool :=
  match x with
  | none => false
  | some s => s ≠ ""

/-- Lines 214-225: `handleCreateBot`. -/
def handleCreateBot (h : Host) (env : Env) (message : Message) (args : List String) : M Unit := do
  let admin ← hasAdministrator message
  if !admin then
    raise JsError.needsAdmin
  else
    match args.get? 0, args.get? 1 with
    | some botName, some token =>
      if !truthy (some botName) || !truthy (some token) then raise JsError.nameAndTokenRequired
      else createBot h env botName token
    | _, _ => raise JsError.nameAndTokenRequired

/-- Lines 227-238: `handleStartBot`. -/
def handleStartBot (h : Host) (env : Env) (message : Message) (args : List String) : M Unit := do
  let admin ← hasAdministrator message
  if !admin then
    raise JsError.needsAdmin
  else
    match args.get? 0 with
    | some botName =>
      if !truthy (some botName) then raise JsError.nameRequired
      else startBot h env botName
    | none => raise JsError.nameRequired

/-- Lines 240-251: the first definition of `handleStopBot` in the class body.
The class body defines the method again on lines 440-451, and the later
definition replaces this one. -/
def handleStopBotFirst (h : Host) (env : Env) (message : Message) (args : List String) : M Unit := do
  let admin ← hasAdministrator message
  if !admin then
    raise JsError.needsAdmin
  else
    match args.get? 0 with
    | some botName =>
      if !truthy (some botName) then raise JsError.nameRequired
      else stopBot h env botName
    | none => raise JsError.nameRequired

/-- Lines 440-451: the second definition of `handleStopBot`, the one the class
ends up with.  Line 441 evaluates `message.member.permissions.has` and then
its argument `PermissionFlagBits.Administrator`; `admin` is the result the
call of `has` would give, which is read only if the argument evaluates. -/
def handleStopBot (h : Host) (env : Env) (message : Message) (args : List String) : M Unit := do
  let admin ← hasAdministrator message
  resolveIdentifier "PermissionFlagBits"
  if !admin then
    raise JsError.needsAdmin
  else
    match args.get? 0 with
    | some botName =>
      if !truthy (some botName) then raise JsError.nameRequired
      else stopBot h env botName
    | none => raise JsError.nameRequired

/-- Lines 253-263: `handleListBots`. -/
def handleListBots (env : Env) : M Unit := do
  let bots ← getBots
  reply env (Reply.botList (bots.map (fun e => (e.1, e.2.status))))

/-- The method `toLowerCase`, on the letters A-Z.  The command names and help
topics are ASCII without the letter k, so the lower-cased text equals one of
them in JavaScript exactly when it does here. -/
def toLowerCase (s : String) : String :=
  String.mk (s.toList.map Char.toLower)

/-- Lines 157-212: `handleHelp`; the text sent depends only on the lower-cased
first argument. -/
def handleHelp (env : Env) (args : List String) : M Unit :=
  reply env (Reply.help ((args.get? 0).map toLowerCase))

/-- The value of `this.prefix` (line 17). -/
def supervisorPrefix : String := "!super"

/-- The white space and line terminators that `String.prototype.trim`
removes. -/
def isJsWhiteSpace (c : Char) : Bool :=
  let n := c.toNat
  n = 9 || n = 10 || n = 11 || n = 12 || n = 13 || n = 32 || n = 160 || n = 5760 ||
  (8192 ≤ n && n ≤ 8202) || n = 8232 || n = 8233 || n = 8239 || n = 8287 || n = 12288 || n = 65279

/-- The method `trim`. -/
def trim (cs : List Char) : List Char :=
  ((cs.dropWhile isJsWhiteSpace).reverse.dropWhile isJsWhiteSpace).reverse

/-- The call `split(/ +/)`: the text is cut at every maximal run of spaces.
`cur` is the piece being read (reversed), `inRun` tells that the previous
character was a space of the current run. -/
def splitSpacesAux (cs : List Char) (cur : List Char) (inRun : Bool) : List String :=
  match cs with
  | [] => [String.mk cur.reverse]
  | c :: rest =>
    if c = ' ' then
      if inRun then splitSpacesAux rest [] true
      else String.mk cur.reverse :: splitSpacesAux rest [] true
    else splitSpacesAux rest (c :: cur) false

/-- The call `split(/ +/)`. -/
def splitSpaces (cs : List Char) : List String :=
  splitSpacesAux cs [] false

/-- Lines 90-123: `handleMessage`. -/
def handleMessage (h : Host) (env : Env) (message : Message) : M Unit :=
  if !(supervisorPrefix.toList.isPrefixOf message.content.toList) || message.authorBot then
    pure ()
  else
    let args := splitSpaces (trim (message.content.toList.drop supervisorPrefix.length))
    let command := toLowerCase (args.headD "")
    let args := args.tail
    tryCatchM
      (if command = "create_bot" then handleCreateBot h env message args
       else if command = "start_bot" then handleStartBot h env message args
       else if command = "stop_bot" then handleStopBot h env message args
       else if command = "stop_all" then handleStopAllBots h env message
       else if command = "list_bots" then handleListBots env
       else if command = "help" then handleHelp env args
       else reply env Reply.unknownCommand)
      (fun error => perform (Call.reply (Reply.failed error)) env.replyFailure)

/-! ## A POSIX host -/

/-- The pieces of a path between its slashes. -/
def splitOnSlash (cs : List Char) : List (List Char) :=
  match cs with
  | [] => [[]]
  | c :: rest =>
    if c = '/' then [] :: splitOnSlash rest
    else
      match splitOnSlash rest with
      | [] => [[c]]
      | seg :: segs => (c :: seg) :: segs

/-- Node's `normalizeString` on the segments of a path: empty segments and
`.` are dropped, `..` removes the segment before it, or is kept when there is
none and the path is relative.  `stack` holds the kept segments, last
first. -/
def normalizeSegments (allowAboveRoot : Bool) (stack : List (List Char)) (segs : List (List Char)) :
    List (List Char) :=
  match segs with
  | [] => stack.reverse
  | seg :: rest =>
    if seg = [] ∨ seg = ['.'] then normalizeSegments allowAboveRoot stack rest
    else if seg = ['.', '.'] then
      match stack with
      | [] =>
        if allowAboveRoot then normalizeSegments allowAboveRoot [seg] rest
        else normalizeSegments allowAboveRoot [] rest
      | top :: below =>
        if top = ['.', '.'] then normalizeSegments allowAboveRoot (seg :: stack) rest
        else normalizeSegments allowAboveRoot below rest
    else normalizeSegments allowAboveRoot (seg :: stack) rest

/-- Segments joined with slashes. -/
def joinSegments (segs : List (List Char)) : List Char :=
  match segs with
  | [] => []
  | [seg] => seg
  | seg :: rest => seg ++ '/' :: joinSegments rest

/-- Node's `path.posix.normalize`. -/
def posixNormalize (path : List Char) : List Char :=
  if path = [] then ['.']
  else
    let isAbsolute := path.head? = some '/'
    let trailingSeparator := path.getLast? = some '/'
    let body := joinSegments (normalizeSegments (!isAbsolute) [] (splitOnSlash path))
    if body = [] then
      if isAbsolute then ['/'] else if trailingSeparator then ['.', '/'] else ['.']
    else
      let body := if trailingSeparator then body ++ ['/'] else body
      if isAbsolute then '/' :: body else body

/-- Node's `path.posix.join`. -/
def posixJoin (parts : List String) : String :=
  match (parts.filter (fun p => p ≠ "")).map String.toList with
  | [] => "."
  | segs => String.mk (posixNormalize (joinSegments segs))

/-- Node's `path.posix.dirname`: the text before the last slash that follows
the last segment; the first character is never taken for that slash. -/
def posixDirname (path : String) : String :=
  match path.toList with
  | [] => "."
  | first :: rest =>
    let hasRoot := first = '/'
    let scanned := (rest.reverse.dropWhile (fun c => c = '/')).dropWhile (fun c => c ≠ '/')
    let stop := scanned.length
    if stop = 0 then (if hasRoot then "/" else ".")
    else if hasRoot ∧ stop = 1 then "//"
    else String.mk ((first :: rest).take stop)

/-- A POSIX host. -/
def posixHost : Host :=
  { join := posixJoin, dirname := posixDirname, win32 := false }

/-- The state in which the supervisor holds the registry `m` and nothing has
happened yet. -/
def initial (m : Entries) (disk : Option Entries) : St :=
  { managedBots := m, disk := disk, trace := [] }

/-- One step of `normalizeSegments`: the stack after the segment `seg`. -/
def pushSegment (allowAboveRoot : Bool) (stack : List (List Char)) (seg : List Char) :
    List (List Char) :=
  if seg = [] ∨ seg = ['.'] then stack
  else if seg = ['.', '.'] then
    match stack with
    | [] => if allowAboveRoot then [seg] else []
    | top :: below => if top = ['.', '.'] then seg :: stack else below
  else seg :: stack

/-- A stack of kept segments (last first) of a relative path: no segment is
empty or `.`, no segment holds a slash, and below a `..` there are only
`..`. -/
def NormalStack (stack : List (List Char)) : Prop :=
  match stack with
  | [] => True
  | top :: below =>
    top ≠ [] ∧ top ≠ ['.'] ∧ '/' ∉ top ∧ (top = ['.', '.'] → ∀ seg ∈ below, seg = ['.', '.']) ∧
      NormalStack below

/-! ## Vocabulary of the properties -/

/-- The keys of a Map, in order.  A Map holds each key once, so the keys of a
registry have no duplicates. -/
def keys (m : Entries) : List String :=
  m.map Prod.fst

/-- The events a call added to the trace. -/
def newEvents (before after : St) : List Event :=
  after.trace.drop before.trace.length

/-- The call that writes the registry document `doc` (line 84). -/
def registryWrite (doc : Entries) : Call :=
  Call.writeFile "managed_bots.json" (Content.registry doc)

/-- The document `saveManagedBots` writes for the registry `m` (`none` when a
record has no `filePath`). -/
def documentOf (m : Entries) : Option Entries :=
  (saveRecords m).map makeObject

/-- An entry with every backslash of its `filePath` replaced by a forward
slash. -/
def withForwardSlashes (e : String × BotInfo) : String × BotInfo :=
  (e.1, { e.2 with filePath := e.2.filePath.map normalizeSlashes })

/-- The name, credential and entry path of an entry (everything but the
status). -/
def identityOf (e : String × BotInfo) : String × String × Option String :=
  (e.1, e.2.token, e.2.filePath)

/-- A save followed by a load. -/
def saveThenLoad (env : Env) : M Unit := do
  saveManagedBots env
  loadManagedBots env

/-- A number of save/load cycles, one after the other. -/
def saveLoadCycles (env : Env) (count : Nat) : M Unit :=
  match count with
  | 0 => pure ()
  | k + 1 => do
    saveThenLoad env
    saveLoadCycles env k

/-- Whether `path` lies inside the directory `dir`, on a host whose separator
is the forward slash: `path` starts with `dir` followed by a slash. -/
def isInside (dir path : String) : Bool :=
  (dir.toList ++ ['/']).isPrefixOf path.toList

/-- The external calls of a start up to the launch of the bot: the manifest
check, `npm install`, and `node`. -/
def launchEvents (h : Host) (p : String) : List Event :=
  [Event.call (Call.access (h.join [h.dirname (normalizeSlashes p), "package.json"])) true,
   Event.call (Call.spawn "npm" ["install", "--legacy-peer-deps", "--force"]
     (some (h.dirname (normalizeSlashes p))) (some "development")) true,
   Event.call (Call.spawn "node" [normalizeSlashes p]
     (some (h.dirname (normalizeSlashes p))) (some "production")) true]

/-- The record `createBot` inserts for `botName` (lines 289-293). -/
def newRecord (h : Host) (botName token : String) : String × BotInfo :=
  (botName,
    { token := token, status := Status.stopped,
      filePath := some (h.join [h.join ["bots", botName], "index.js"]) })

/-- The external calls of `createBot` before the record is inserted (lines
276-287), in order. -/
def provisionCalls (h : Host) (botName token : String) : List Call :=
  [Call.cp (h.join ["bots", "az"]) (h.join ["bots", botName]),
   Call.mkdir (h.join ["bots", "az", "bots"]),
   Call.writeFile (h.join [h.join ["bots", "az", "bots"], "index.js"]) Content.scaffold,
   Call.readFile (h.join [h.join ["bots", botName], "config.json"]),
   Call.writeFile (h.join [h.join ["bots", botName], "config.json"]) (Content.config token)]

/-- The outcomes the environment gives the calls of `provisionCalls`. -/
def provisionOutcomes (env : Env) : List (Option JsError) :=
  [env.cp, env.mkdir, env.writeScaffold, env.readConfig, env.writeConfig]

/-- The events of a run of calls: each call that succeeds is recorded and
the run goes on; the first call that fails is recorded and ends the run. -/
def runCalls (calls : List Call) (outcomes : List (Option JsError)) : List Event × Option JsError :=
  match calls, outcomes with
  | c :: cs, none :: os => ((Event.call c true) :: (runCalls cs os).1, (runCalls cs os).2)
  | c :: _, some e :: _ => ([Event.call c false], some e)
  | _, _ => ([], none)

/-- The end of a mutating operation, `await this.saveManagedBots()` followed
by `await message.reply(text)` inside the `try` whose `catch` wraps the
error: `r` is the completion of the save, `wrap` the error of the `catch`. -/
def finishWith (env : Env) (text : Reply) (wrap : JsError → JsError) (r : Completion Unit × St) :
    Completion Unit × St :=
  match r with
  | (Completion.threw e, s1) => (Completion.threw (wrap e), s1)
  | (Completion.returned _, s1) =>
    match env.reply with
    | none =>
      (Completion.returned (), { s1 with trace := s1.trace ++ [Event.call (Call.reply text) true] })
    | some e =>
      (Completion.threw (wrap e), { s1 with trace := s1.trace ++ [Event.call (Call.reply text) false] })

/-- The event of the kill command (lines 140-143 and 465-468). -/
def killEvent (h : Host) : Event :=
  if h.win32 then Event.call (Call.spawn "taskkill" ["/F", "/IM", "node.exe"] none none) true
  else Event.call (Call.spawn "pkill" ["-f", "node"] none none) true

/-- Whether an event is the launch of a bot process (`spawn('node', ...)`,
line 345). -/
def isBotLaunch (e : Event) : Bool :=
  match e with
  | Event.call (Call.spawn command _ _ _) _ => command = "node"
  | _ => false

/-- Whether an event belongs to a save: `saveManagedBots` was entered, or
`managed_bots.json` was written. -/
def isSave (e : Event) : Bool :=
  match e with
  | Event.saveInvoked => true
  | Event.call (Call.writeFile path _) _ => path = "managed_bots.json"
  | _ => false

/-- A run either stops before `saveManagedBots` is entered and leaves the
registry as it was, or enters `saveManagedBots` with the registry already
changed to `changed` and leaves it so. -/
def Framed (s after : St) (changed : Entries) : Prop :=
  (after.managedBots = s.managedBots ∧ Event.saveInvoked ∉ newEvents s after) ∨
  (after.managedBots = changed ∧ Event.saveInvoked ∈ newEvents s after)

/-- An environment in which every external call succeeds and `npm install`
closes with code 0. -/
def allSucceed : Env :=
  { cp := none, mkdir := none, writeScaffold := none, readConfig := none, writeConfig := none,
    writeRegistry := none, readRegistry := none, access := none,
    npm := NpmOutcome.close (some 0), reply := none, replyFailure := none }

/-- The environment `allSucceed`, except that writing `managed_bots.json`
rejects. -/
def saveFails : Env :=
  { allSucceed with writeRegistry := some (JsError.external "EACCES") }

/-- The environment `allSucceed`, except that `package.json` is not found. -/
def manifestAbsent : Env :=
  { allSucceed with access := some (JsError.external "ENOENT") }

/-- The environment `allSucceed`, except that the copy of the template
rejects. -/
def copyFails : Env :=
  { allSucceed with cp := some (JsError.external "ENOENT") }

/-- A record of the bot `name` as `createBot` makes it on a POSIX host, with
the given status. -/
def sampleBot (name : String) (status : Status) : String × BotInfo :=
  (name, { token := "tok123", status := status, filePath := some (posixJoin ["bots", name, "index.js"]) })

/-- The path of `index.js` in `bots`, `w`, written with two backslashes (code
92) as separators. -/
def backslashPath : String :=
  String.mk ['b', 'o', 't', 's', Char.ofNat 92, 'w', Char.ofNat 92, 'i', 'n', 'd', 'e', 'x', '.', 'j', 's']

/-- A registry whose keys are not in property order and one of whose entry
paths is written with backslashes. -/
def mixedRegistry : Entries :=
  [("w", { token := "t1", status := Status.running, filePath := some backslashPath }),
   ("10", { token := "t2", status := Status.stopped, filePath := some "bots/10/index.js" }),
   ("2", { token := "t3", status := Status.stopped, filePath := some "bots/2/index.js" })]

/-- The registry `mixedRegistry` after a save and a load: keys in property
order, entry paths with forward slashes. -/
def mixedRegistryStored : Entries :=
  [("2", { token := "t3", status := Status.stopped, filePath := some "bots/2/index.js" }),
   ("10", { token := "t2", status := Status.stopped, filePath := some "bots/10/index.js" }),
   ("w", { token := "t1", status := Status.running, filePath := some "bots/w/index.js" })]

/-- A message of an administrator who is not a bot. -/
def adminMessage (content : String) : Message :=
  { content := content, authorBot := false, member := some true }

/-! ## Lemmas on Maps and objects -/

theorem mapSet_append (m : Entries) (k : String) (v : BotInfo) (h : k ∉ keys m) :
    mapSet m k v = m ++ [(k, v)] := by
  induction m with
  | nil => rfl
  | cons e rest ih =>
    obtain ⟨k1, v1⟩ := e
    simp only [keys, List.map_cons, List.mem_cons, not_or] at h
    have hne : ¬ k1 = k := fun hk => h.1 hk.symm
    simp [mapSet, hne, ih h.2]

theorem foldl_mapSet (l acc : Entries) (h : (keys (acc ++ l)).Nodup) :
    l.foldl (fun m e => mapSet m e.1 e.2) acc = acc ++ l := by
  induction l generalizing acc with
  | nil => simp
  | cons e rest ih =>
    have hk : e.1 ∉ keys acc := by
      simp only [keys, List.map_append, List.map_cons] at h
      have hd := List.nodup_append.mp h
      intro hmem
      exact hd.2.2 hmem (List.mem_cons_self _ _)
    rw [List.foldl_cons, mapSet_append acc e.1 e.2 hk, ih]
    · simp
    · simpa using h

theorem newMap_of_nodup (l : Entries) (h : (keys l).Nodup) : newMap l = l := by
  unfold newMap
  rw [foldl_mapSet l [] (by simpa using h)]
  simp

theorem mapGet_eq_none_iff (m : Entries) (n : String) : mapGet m n = none ↔ n ∉ keys m := by
  induction m with
  | nil => simp [mapGet, keys]
  | cons e rest ih =>
    obtain ⟨k, v⟩ := e
    by_cases hk : k = n
    · simp [mapGet, keys, hk]
    · have hk2 : ¬ n = k := fun h => hk h.symm
      simp only [keys] at ih
      simp [mapGet, keys, hk, hk2, ih]

theorem mem_of_mapGet (m : Entries) (n : String) (v : BotInfo) (h : mapGet m n = some v) :
    (n, v) ∈ m := by
  induction m with
  | nil => simp [mapGet] at h
  | cons e rest ih =>
    obtain ⟨k, w⟩ := e
    by_cases hk : k = n
    · simp [mapGet, hk] at h
      simp [hk, h]
    · simp [mapGet, hk] at h
      exact List.mem_cons_of_mem _ (ih h)

theorem mapGet_of_mem (m : Entries) (n : String) (v : BotInfo) (hnd : (keys m).Nodup)
    (h : (n, v) ∈ m) : mapGet m n = some v := by
  induction m with
  | nil => simp at h
  | cons e rest ih =>
    obtain ⟨k, w⟩ := e
    simp only [keys, List.map_cons, List.nodup_cons] at hnd
    rcases List.mem_cons.mp h with heq | hmem
    · simp only [Prod.mk.injEq] at heq
      simp [mapGet, heq.1, heq.2]
    · have hk : ¬ k = n := by
        intro hk
        apply hnd.1
        rw [hk]
        exact List.mem_map_of_mem Prod.fst hmem
      simp [mapGet, hk, ih hnd.2 hmem]

theorem mapGet_perm (l1 l2 : Entries) (n : String) (hp : l1.Perm l2) (hnd : (keys l1).Nodup) :
    mapGet l1 n = mapGet l2 n := by
  have hk : (keys l1).Perm (keys l2) := hp.map Prod.fst
  have hnd2 : (keys l2).Nodup := hk.nodup_iff.mp hnd
  cases h1 : mapGet l1 n with
  | none =>
    have h := (mapGet_eq_none_iff l1 n).mp h1
    exact ((mapGet_eq_none_iff l2 n).mpr (fun hm => h (hk.mem_iff.mpr hm))).symm
  | some v =>
    have h := mem_of_mapGet l1 n v h1
    exact (mapGet_of_mem l2 n v hnd2 (hp.mem_iff.mp h)).symm

theorem mapGet_map (g : BotInfo → BotInfo) (m : Entries) (n : String) :
    mapGet (m.map (fun e => (e.1, g e.2))) n = (mapGet m n).map g := by
  induction m with
  | nil => rfl
  | cons e rest ih =>
    obtain ⟨k, v⟩ := e
    by_cases hk : k = n <;> simp [mapGet, hk, ih]

theorem keys_assignStatus (m : Entries) (n : String) (st : Status) :
    keys (assignStatus m n st) = keys m := by
  induction m with
  | nil => rfl
  | cons e rest ih =>
    obtain ⟨k, v⟩ := e
    simp only [keys] at ih
    by_cases hk : k = n <;> simp [assignStatus, keys, hk, ih]

theorem mapGet_assignStatus (m : Entries) (n : String) (st : Status) :
    mapGet (assignStatus m n st) n = (mapGet m n).map (fun b => { b with status := st }) := by
  induction m with
  | nil => rfl
  | cons e rest ih =>
    obtain ⟨k, v⟩ := e
    by_cases hk : k = n <;> simp [assignStatus, mapGet, hk, ih]

theorem identityOf_assignStatus (m : Entries) (n : String) (st : Status) :
    (assignStatus m n st).map identityOf = m.map identityOf := by
  induction m with
  | nil => rfl
  | cons e rest ih =>
    obtain ⟨k, v⟩ := e
    by_cases hk : k = n <;> simp [assignStatus, identityOf, hk, ih]

theorem normalizeSlashes_idem (p : String) :
    normalizeSlashes (normalizeSlashes p) = normalizeSlashes p := by
  unfold normalizeSlashes
  simp only [String.toList, List.map_map]
  congr 1
  apply List.map_congr_left
  intro c _
  simp only [Function.comp]
  split <;> simp_all

theorem normalizeSlashes_no_backslash (p : String) :
    Char.ofNat 92 ∉ (normalizeSlashes p).toList := by
  unfold normalizeSlashes
  simp only [String.toList, List.mem_map, not_exists, not_and]
  intro c _
  split
  · decide
  · assumption

theorem saveRecords_eq (m : Entries) (h : ∀ e ∈ m, e.2.filePath.isSome) :
    saveRecords m = some (m.map withForwardSlashes) := by
  induction m with
  | nil => rfl
  | cons e rest ih =>
    obtain ⟨k, ⟨t, s, fp⟩⟩ := e
    have h1 := h _ (List.mem_cons_self _ _)
    cases fp with
    | none => simp at h1
    | some p =>
      have := ih (fun e he => h e (List.mem_cons_of_mem _ he))
      simp [saveRecords, this, withForwardSlashes]

theorem saveRecords_some (m mapped : Entries) (h : saveRecords m = some mapped) :
    (∀ e ∈ m, e.2.filePath.isSome) ∧ mapped = m.map withForwardSlashes := by
  induction m generalizing mapped with
  | nil =>
    simp [saveRecords] at h
    simp [h]
  | cons e rest ih =>
    obtain ⟨k, ⟨t, s, fp⟩⟩ := e
    cases fp with
    | none => simp [saveRecords] at h
    | some p =>
      cases hr : saveRecords rest with
      | none => simp [saveRecords, hr] at h
      | some r =>
        simp [saveRecords, hr] at h
        obtain ⟨h1, h2⟩ := ih r hr
        subst h
        subst h2
        refine ⟨?_, by simp [withForwardSlashes]⟩
        intro e he
        rcases List.mem_cons.mp he with heq | hmem
        · simp [heq]
        · exact h1 e hmem

theorem keys_map_withForwardSlashes (m : Entries) : keys (m.map withForwardSlashes) = keys m := by
  simp [keys, withForwardSlashes, Function.comp_def]

theorem objectOrder_perm (l : Entries) : (objectOrder l).Perm l := by
  unfold objectOrder
  refine ((List.perm_insertionSort indexLE _).append_right _).trans ?_
  exact List.filter_append_perm _ l

theorem keys_objectOrder_nodup (l : Entries) (h : (keys l).Nodup) : (keys (objectOrder l)).Nodup :=
  (((objectOrder_perm l).map Prod.fst).nodup_iff).mpr h

theorem objectOrder_idem (l : Entries) : objectOrder (objectOrder l) = objectOrder l := by
  have hs : ((l.filter isIndexEntry).insertionSort indexLE).filter isIndexEntry
      = (l.filter isIndexEntry).insertionSort indexLE := by
    rw [List.filter_eq_self]
    intro a ha
    have := (List.mem_insertionSort indexLE).mp ha
    exact (List.mem_filter.mp this).2
  have hn : ((l.filter isIndexEntry).insertionSort indexLE).filter (fun e => !isIndexEntry e) = [] := by
    rw [List.filter_eq_nil_iff]
    intro a ha
    have := (List.mem_insertionSort indexLE).mp ha
    simp [(List.mem_filter.mp this).2]
  have hs2 : (l.filter (fun e => !isIndexEntry e)).filter isIndexEntry = [] := by
    rw [List.filter_eq_nil_iff]
    intro a ha
    have := (List.mem_filter.mp ha).2
    simpa using this
  have hn2 : (l.filter (fun e => !isIndexEntry e)).filter (fun e => !isIndexEntry e)
      = l.filter (fun e => !isIndexEntry e) := by
    rw [List.filter_eq_self]
    intro a ha
    exact (List.mem_filter.mp ha).2
  unfold objectOrder
  rw [List.filter_append, List.filter_append, hs, hn, hs2, hn2, List.append_nil, List.nil_append,
    List.Sorted.insertionSort_eq (List.sorted_insertionSort indexLE _)]

theorem objectOrder_map (g : String × BotInfo → String × BotInfo) (hg : ∀ e, (g e).1 = e.1)
    (l : Entries) : objectOrder (l.map g) = (objectOrder l).map g := by
  have hi : ∀ e, isIndexEntry (g e) = isIndexEntry e := fun e => by simp [isIndexEntry, hg]
  have hx : ∀ e, indexOf (g e) = indexOf e := fun e => by simp [indexOf, hg]
  unfold objectOrder
  rw [List.map_append, List.filter_map, List.filter_map]
  have h1 : (isIndexEntry ∘ g) = isIndexEntry := funext hi
  have h2 : ((fun e => !isIndexEntry e) ∘ g) = (fun e => !isIndexEntry e) := by
    funext e; simp [hi]
  rw [h1, h2, List.map_insertionSort indexLE indexLE g]
  intro a _ b _
  simp [indexLE, hx]

theorem makeObject_of_nodup (l : Entries) (h : (keys l).Nodup) : makeObject l = objectOrder l := by
  simp [makeObject, newMap_of_nodup l h]

theorem mapGet_makeObject (l : Entries) (n : String) (h : (keys l).Nodup) :
    mapGet (makeObject l) n = mapGet l n := by
  rw [makeObject_of_nodup l h]
  exact mapGet_perm _ _ n (objectOrder_perm l) (keys_objectOrder_nodup l h)

/-! ## Lemmas on the POSIX host -/

theorem splitOnSlash_ne_nil (a : List Char) : splitOnSlash a ≠ [] := by
  cases a with
  | nil => simp [splitOnSlash]
  | cons c rest =>
    unfold splitOnSlash
    by_cases hc : c = '/'
    · simp [hc]
    · simp only [hc, reduceIte]
      cases splitOnSlash rest <;> simp

theorem splitOnSlash_append (a b : List Char) :
    splitOnSlash (a ++ '/' :: b) = splitOnSlash a ++ splitOnSlash b := by
  induction a with
  | nil => simp [splitOnSlash]
  | cons c rest ih =>
    by_cases hc : c = '/'
    · simp [splitOnSlash, hc, ih]
    · have hne := splitOnSlash_ne_nil rest
      cases hs : splitOnSlash rest with
      | nil => exact absurd hs hne
      | cons seg segs =>
        simp [splitOnSlash, hc, ih, hs]

theorem splitOnSlash_of_no_slash (a : List Char) (h : '/' ∉ a) : splitOnSlash a = [a] := by
  induction a with
  | nil => rfl
  | cons c rest ih =>
    simp only [List.mem_cons, not_or] at h
    have hc : ¬ c = '/' := fun hc => h.1 hc.symm
    simp [splitOnSlash, hc, ih h.2]

theorem splitOnSlash_no_slash (a : List Char) : ∀ seg ∈ splitOnSlash a, '/' ∉ seg := by
  induction a with
  | nil => simp [splitOnSlash]
  | cons c rest ih =>
    by_cases hc : c = '/'
    · intro seg hseg
      simp only [splitOnSlash, hc, reduceIte, List.mem_cons] at hseg
      rcases hseg with rfl | hseg
      · simp
      · exact ih seg hseg
    · have hne := splitOnSlash_ne_nil rest
      cases hs : splitOnSlash rest with
      | nil => exact absurd hs hne
      | cons s0 segs =>
        rw [hs] at ih
        intro seg hseg
        simp only [splitOnSlash, hc, reduceIte, hs, List.mem_cons] at hseg
        rcases hseg with rfl | hseg
        · have h0 := ih s0 (List.mem_cons_self _ _)
          simp only [List.mem_cons, not_or]
          exact ⟨fun h => hc h.symm, h0⟩
        · exact ih seg (List.mem_cons_of_mem _ hseg)

theorem splitOnSlash_joinSegments (segs : List (List Char)) (hne : segs ≠ [])
    (h : ∀ seg ∈ segs, '/' ∉ seg) : splitOnSlash (joinSegments segs) = segs := by
  induction segs with
  | nil => exact absurd rfl hne
  | cons seg rest ih =>
    cases rest with
    | nil => simpa [joinSegments] using splitOnSlash_of_no_slash seg (h seg (List.mem_cons_self _ _))
    | cons s1 more =>
      have h1 := ih (by simp) (fun s hs => h s (List.mem_cons_of_mem _ hs))
      simp only [joinSegments]
      rw [splitOnSlash_append, splitOnSlash_of_no_slash seg (h seg (List.mem_cons_self _ _))]
      simp only [joinSegments] at h1
      rw [h1]
      rfl

theorem normalizeSegments_eq (allow : Bool) (stack segs : List (List Char)) :
    normalizeSegments allow stack segs = (segs.foldl (pushSegment allow) stack).reverse := by
  induction segs generalizing stack with
  | nil => simp [normalizeSegments]
  | cons seg rest ih =>
    unfold normalizeSegments
    rw [List.foldl_cons]
    by_cases h1 : seg = [] ∨ seg = ['.']
    · simp only [h1, reduceIte, pushSegment, ih]
    · by_cases h2 : seg = ['.', '.']
      · cases stack with
        | nil => cases allow <;> simp [h2, pushSegment, ih]
        | cons top below =>
          by_cases h3 : top = ['.', '.'] <;> simp [h2, h3, pushSegment, ih]
      · simp only [h1, h2, reduceIte, pushSegment, ih]

theorem normalStack_push (stack : List (List Char)) (seg : List Char) (hs : NormalStack stack)
    (hseg : '/' ∉ seg) : NormalStack (pushSegment true stack seg) := by
  unfold pushSegment
  by_cases h1 : seg = [] ∨ seg = ['.']
  · simpa [h1] using hs
  · have h1a : seg ≠ [] := fun h => h1 (Or.inl h)
    have h1b : seg ≠ ['.'] := fun h => h1 (Or.inr h)
    by_cases h2 : seg = ['.', '.']
    · cases stack with
      | nil =>
        subst h2
        simp [NormalStack]
      | cons top below =>
        by_cases h3 : top = ['.', '.']
        · subst h2
          have hall : ∀ s ∈ top :: below, s = ['.', '.'] := by
            intro s hmem
            rcases List.mem_cons.mp hmem with rfl | hb
            · exact h3
            · exact hs.2.2.2.1 h3 s hb
          have hgoal : NormalStack (['.', '.'] :: top :: below) :=
            ⟨by simp, by simp, by simp, fun _ => hall, hs⟩
          simpa [h3] using hgoal
        · subst h2
          have hgoal : NormalStack below := hs.2.2.2.2
          simpa [h3] using hgoal
    · have hgoal : NormalStack (seg :: stack) := ⟨h1a, h1b, hseg, fun h => absurd h h2, hs⟩
      simpa [h1, h2] using hgoal

theorem normalStack_foldl (segs stack : List (List Char)) (hs : NormalStack stack)
    (hsegs : ∀ seg ∈ segs, '/' ∉ seg) : NormalStack (segs.foldl (pushSegment true) stack) := by
  induction segs generalizing stack with
  | nil => exact hs
  | cons seg rest ih =>
    rw [List.foldl_cons]
    exact ih _ (normalStack_push stack seg hs (hsegs seg (List.mem_cons_self _ _)))
      (fun s hmem => hsegs s (List.mem_cons_of_mem _ hmem))

theorem pushSegment_normal (top : List Char) (below : List (List Char))
    (hs : NormalStack (top :: below)) : pushSegment true below top = top :: below := by
  obtain ⟨h1, h2, _, h4, _⟩ := hs
  unfold pushSegment
  by_cases h3 : top = ['.', '.']
  · cases below with
    | nil => simp [h3]
    | cons b more =>
      have hb : b = ['.', '.'] := h4 h3 b (List.mem_cons_self _ _)
      simp [h3, hb]
  · simp [h1, h2, h3]

theorem foldl_normalStack (stack : List (List Char)) (hs : NormalStack stack) :
    stack.reverse.foldl (pushSegment true) [] = stack := by
  induction stack with
  | nil => rfl
  | cons top below ih =>
    rw [List.reverse_cons, List.foldl_append, List.foldl_cons, List.foldl_nil, ih hs.2.2.2.2]
    exact pushSegment_normal top below hs

theorem normalStack_segments (stack : List (List Char)) (hs : NormalStack stack) :
    ∀ seg ∈ stack, seg ≠ [] ∧ '/' ∉ seg := by
  induction stack with
  | nil => simp
  | cons top below ih =>
    intro seg hmem
    rcases List.mem_cons.mp hmem with rfl | hb
    · exact ⟨hs.1, hs.2.2.1⟩
    · exact ih hs.2.2.2.2 seg hb

theorem posixNormalize_relative (x : List Char) (hne : x ≠ []) (habs : x.head? ≠ some '/') :
    posixNormalize x =
      if joinSegments ((splitOnSlash x).foldl (pushSegment true) []).reverse = [] then
        (if x.getLast? = some '/' then ['.', '/'] else ['.'])
      else if x.getLast? = some '/' then
        joinSegments ((splitOnSlash x).foldl (pushSegment true) []).reverse ++ ['/']
      else joinSegments ((splitOnSlash x).foldl (pushSegment true) []).reverse := by
  unfold posixNormalize
  simp only [hne, habs, reduceIte, normalizeSegments_eq, decide_False, Bool.not_false]

theorem joinSegments_snoc_ne_nil (segs : List (List Char)) (last : List Char) (h : last ≠ []) :
    joinSegments (segs ++ [last]) ≠ [] := by
  cases segs with
  | nil => simpa [joinSegments] using h
  | cons seg rest =>
    cases hr : rest ++ [last] with
    | nil => simp at hr
    | cons r more =>
      rw [List.cons_append, hr]
      simp [joinSegments]

theorem joinSegments_head (seg : List Char) (rest : List (List Char)) (h1 : seg ≠ [])
    (h2 : '/' ∉ seg) :
    joinSegments (seg :: rest) ≠ [] ∧ (joinSegments (seg :: rest)).head? ≠ some '/' := by
  cases seg with
  | nil => exact absurd rfl h1
  | cons c cs =>
    have hc : c ≠ '/' := by
      intro hc
      apply h2
      rw [hc]
      exact List.mem_cons_self _ _
    cases rest with
    | nil => simp [joinSegments, hc]
    | cons r more => simp [joinSegments, hc]

/-- A path that ends in one more ordinary segment: the segment is put on
the stack of the path before it. -/
theorem posixNormalize_append (x last : List Char) (hne : x ≠ []) (habs : x.head? ≠ some '/')
    (h0 : last ≠ []) (h1 : last ≠ ['.']) (h2 : last ≠ ['.', '.']) (h3 : '/' ∉ last) :
    posixNormalize (x ++ '/' :: last) =
      joinSegments (((splitOnSlash x).foldl (pushSegment true) []).reverse ++ [last]) := by
  have hne2 : x ++ '/' :: last ≠ [] := by simp
  have habs2 : (x ++ '/' :: last).head? ≠ some '/' := by
    cases x with
    | nil => exact absurd rfl hne
    | cons c cs => simpa using habs
  have hlast : (x ++ '/' :: last).getLast? ≠ some '/' := by
    have hl : (x ++ '/' :: last).getLast? = last.getLast? := by
      rw [List.getLast?_append, List.getLast?_cons]
      cases hq : last.getLast? with
      | none => exact absurd (List.getLast?_eq_none_iff.mp hq) h0
      | some c => simp
    rw [hl]
    intro hq
    exact h3 (List.mem_of_getLast?_eq_some hq)
  have hpush : ∀ st, pushSegment true st last = last :: st := by
    intro st
    simp [pushSegment, h0, h1, h2]
  rw [posixNormalize_relative _ hne2 habs2, splitOnSlash_append,
    splitOnSlash_of_no_slash last h3, List.foldl_append, List.foldl_cons, List.foldl_nil, hpush,
    List.reverse_cons]
  simp only [hlast, reduceIte, joinSegments_snoc_ne_nil _ last h0]

/-- The segments of a normalized relative path normalize to the same stack. -/
theorem posixNormalize_stack (x : List Char) (hne : x ≠ []) (habs : x.head? ≠ some '/') :
    posixNormalize x ≠ [] ∧ (posixNormalize x).head? ≠ some '/' ∧
    (splitOnSlash (posixNormalize x)).foldl (pushSegment true) []
      = (splitOnSlash x).foldl (pushSegment true) [] := by
  have hstack : NormalStack ((splitOnSlash x).foldl (pushSegment true) []) :=
    normalStack_foldl _ [] trivial (splitOnSlash_no_slash x)
  rw [posixNormalize_relative x hne habs]
  cases hst : ((splitOnSlash x).foldl (pushSegment true) []).reverse with
  | nil =>
    have hnil : (splitOnSlash x).foldl (pushSegment true) [] = [] := by
      simpa using hst
    rw [hnil]
    by_cases ht : x.getLast? = some '/'
    · simp only [joinSegments, ht, reduceIte]
      decide
    · simp only [joinSegments, ht, reduceIte]
      decide
  | cons seg rest =>
    have hmem : ∀ s ∈ seg :: rest, s ≠ [] ∧ '/' ∉ s := by
      intro s hs
      apply normalStack_segments _ hstack s
      rw [← List.mem_reverse, hst]
      exact hs
    have hseg := hmem seg (List.mem_cons_self _ _)
    obtain ⟨hj1, hj2⟩ := joinSegments_head seg rest hseg.1 hseg.2
    have hsplit : splitOnSlash (joinSegments (seg :: rest)) = seg :: rest :=
      splitOnSlash_joinSegments _ (by simp) (fun s hs => (hmem s hs).2)
    have hfold : (seg :: rest).foldl (pushSegment true) []
        = (splitOnSlash x).foldl (pushSegment true) [] := by
      rw [← hst]
      exact foldl_normalStack _ hstack
    by_cases ht : x.getLast? = some '/'
    · simp only [hj1, ht, reduceIte]
      refine ⟨by simp, ?_, ?_⟩
      · cases hj : joinSegments (seg :: rest) with
        | nil => exact absurd hj hj1
        | cons c cs =>
          rw [hj] at hj2
          simpa using hj2
      · rw [splitOnSlash_append, hsplit, List.foldl_append, hfold]
        simp [splitOnSlash, pushSegment]
    · simp only [hj1, ht, reduceIte]
      exact ⟨hj1, hj2, by rw [hsplit, hfold]⟩

theorem posixJoin_pair (a b : String) (ha : a ≠ "") (hb : b ≠ "") :
    posixJoin [a, b] = String.mk (posixNormalize (a.toList ++ '/' :: b.toList)) := by
  simp [posixJoin, ha, hb, joinSegments]

theorem posixJoin_triple (a b c : String) (ha : a ≠ "") (hb : b ≠ "") (hc : c ≠ "") :
    posixJoin [a, b, c]
      = String.mk (posixNormalize ((a.toList ++ '/' :: b.toList) ++ '/' :: c.toList)) := by
  simp [posixJoin, ha, hb, hc, joinSegments]

/-- On a POSIX host, joining `bots` with `n` and the result with `index.js`
gives the join of the three. -/
theorem posixJoin_nested (n : String) :
    posixJoin [posixJoin ["bots", n], "index.js"] = posixJoin ["bots", n, "index.js"] := by
  by_cases hn : n = ""
  · subst hn
    decide
  · have hx : "bots".toList ++ '/' :: n.toList ≠ [] := by simp
    have habs : ("bots".toList ++ '/' :: n.toList).head? ≠ some '/' := by
      simp [String.toList]
    obtain ⟨hp1, hp2, hp3⟩ := posixNormalize_stack _ hx habs
    have hmk : String.mk (posixNormalize ("bots".toList ++ '/' :: n.toList)) ≠ "" := by
      intro h
      apply hp1
      have h2 := congrArg String.toList h
      exact h2
    rw [posixJoin_pair "bots" n (by decide) hn, posixJoin_pair _ "index.js" hmk (by decide),
      posixJoin_triple "bots" n "index.js" (by decide) hn (by decide)]
    show String.mk (posixNormalize
        (posixNormalize ("bots".toList ++ '/' :: n.toList) ++ '/' :: "index.js".toList)) = _
    rw [posixNormalize_append _ _ hp1 hp2 (by decide) (by decide) (by decide) (by decide),
      posixNormalize_append _ _ hx habs (by decide) (by decide) (by decide) (by decide), hp3]

/-! ## Runs of the registry store -/

theorem bind_run {α β : Type} (x : M α) (f : α → M β) (s : St) :
    (x >>= f) s = match x s with
      | (Completion.returned a, s1) => f a s1
      | (Completion.threw e, s1) => (Completion.threw e, s1) := rfl

theorem pure_run {α : Type} (a : α) (s : St) : (pure a : M α) s = (Completion.returned a, s) := rfl

theorem saveManagedBots_run (env : Env) (s : St) :
    saveManagedBots env s =
      match saveRecords s.managedBots with
      | none =>
        (Completion.threw (JsError.saveFailed (JsError.typeError "replace")),
          { s with trace := s.trace ++ [Event.saveInvoked] })
      | some mapped =>
        match env.writeRegistry with
        | none =>
          (Completion.returned (),
            { managedBots := s.managedBots, disk := some (makeObject mapped),
              trace := s.trace ++
                [Event.saveInvoked, Event.call (registryWrite (makeObject mapped)) true] })
        | some e =>
          (Completion.threw (JsError.saveFailed e),
            { s with trace := s.trace ++
                [Event.saveInvoked, Event.call (registryWrite (makeObject mapped)) false] }) := by
  cases h1 : saveRecords s.managedBots with
  | none =>
    simp [saveManagedBots, tryCatchM, bind_run, record, getBots, h1, raise]
  | some mapped =>
    cases h2 : env.writeRegistry with
    | none =>
      simp [saveManagedBots, tryCatchM, bind_run, record, getBots, h1, h2, raise, writeRegistry,
        perform, registryWrite]
    | some e =>
      simp [saveManagedBots, tryCatchM, bind_run, record, getBots, h1, h2, raise, writeRegistry,
        perform, registryWrite]

/-- The registry after one save/load cycle: the entries with forward slashes,
in property order. -/
theorem loadManagedBots_run (env : Env) (s : St) (doc : Entries)
    (hr : env.readRegistry = none) (hd : s.disk = some doc) :
    loadManagedBots env s =
      (Completion.returned (),
        { managedBots :=
            newMap ((makeObject doc).map (fun e => (e.1, { e.2 with filePath := loadPath e.2.filePath }))),
          disk := s.disk,
          trace := s.trace ++ [Event.call (Call.readFile "managed_bots.json") true] }) := by
  simp [loadManagedBots, tryCatchM, bind_run, readRegistry, hr, hd, setBots]

theorem loadPath_normalized (e : String × BotInfo) :
    (fun e : String × BotInfo => (e.1, { e.2 with filePath := loadPath e.2.filePath }))
      (withForwardSlashes e) = withForwardSlashes e := by
  obtain ⟨k, ⟨t, st, fp⟩⟩ := e
  cases fp with
  | none => simp [withForwardSlashes, loadPath]
  | some p =>
    by_cases hp : normalizeSlashes p = ""
    · simp [withForwardSlashes, loadPath, hp]
    · simp [withForwardSlashes, loadPath, hp, normalizeSlashes_idem]

theorem withForwardSlashes_idem (e : String × BotInfo) :
    withForwardSlashes (withForwardSlashes e) = withForwardSlashes e := by
  obtain ⟨k, ⟨t, s, fp⟩⟩ := e
  cases fp <;> simp [withForwardSlashes, normalizeSlashes_idem]

/-- One save/load cycle when both file operations succeed. -/
theorem saveThenLoad_run (env : Env) (s : St)
    (hw : env.writeRegistry = none) (hr : env.readRegistry = none)
    (hmap : (keys s.managedBots).Nodup) (hpath : ∀ e ∈ s.managedBots, e.2.filePath.isSome) :
    saveThenLoad env s =
      (Completion.returned (),
        { managedBots := (objectOrder s.managedBots).map withForwardSlashes,
          disk := some ((objectOrder s.managedBots).map withForwardSlashes),
          trace := s.trace ++
            [Event.saveInvoked,
             Event.call (registryWrite ((objectOrder s.managedBots).map withForwardSlashes)) true,
             Event.call (Call.readFile "managed_bots.json") true] }) := by
  have hk : (keys (s.managedBots.map withForwardSlashes)).Nodup := by
    rw [keys_map_withForwardSlashes]; exact hmap
  have hdoc : makeObject (s.managedBots.map withForwardSlashes)
      = (objectOrder s.managedBots).map withForwardSlashes := by
    rw [makeObject_of_nodup _ hk, objectOrder_map withForwardSlashes (fun _ => rfl)]
  have hk2 : (keys ((objectOrder s.managedBots).map withForwardSlashes)).Nodup := by
    rw [keys_map_withForwardSlashes]; exact keys_objectOrder_nodup _ hmap
  have hagain : makeObject ((objectOrder s.managedBots).map withForwardSlashes)
      = (objectOrder s.managedBots).map withForwardSlashes := by
    rw [makeObject_of_nodup _ hk2, objectOrder_map withForwardSlashes (fun _ => rfl), objectOrder_idem]
  have hload : ((objectOrder s.managedBots).map withForwardSlashes).map
      (fun e => (e.1, { e.2 with filePath := loadPath e.2.filePath }))
      = (objectOrder s.managedBots).map withForwardSlashes := by
    rw [List.map_map]
    apply List.map_congr_left
    intro e _
    exact loadPath_normalized e
  simp only [saveThenLoad, bind_run, saveManagedBots_run, saveRecords_eq _ hpath, hw, hdoc]
  rw [loadManagedBots_run env _ _ hr rfl]
  simp only [hagain, hload, newMap_of_nodup _ hk2, List.append_assoc, List.cons_append,
    List.nil_append]

theorem saveLoadCycles_run (env : Env) (k : Nat) (s : St)
    (hw : env.writeRegistry = none) (hr : env.readRegistry = none)
    (hmap : (keys s.managedBots).Nodup) (hpath : ∀ e ∈ s.managedBots, e.2.filePath.isSome) :
    (saveLoadCycles env (k + 1) s).1 = Completion.returned () ∧
    (saveLoadCycles env (k + 1) s).2.managedBots = (objectOrder s.managedBots).map withForwardSlashes ∧
    (saveLoadCycles env (k + 1) s).2.disk = some ((objectOrder s.managedBots).map withForwardSlashes) := by
  induction k generalizing s with
  | zero =>
    simp [saveLoadCycles, bind_run, saveThenLoad_run env s hw hr hmap hpath, pure_run]
  | succ k ih =>
    have hk2 : (keys ((objectOrder s.managedBots).map withForwardSlashes)).Nodup := by
      rw [keys_map_withForwardSlashes]; exact keys_objectOrder_nodup _ hmap
    have hp2 : ∀ e ∈ (objectOrder s.managedBots).map withForwardSlashes, e.2.filePath.isSome := by
      intro e he
      obtain ⟨e0, he0, rfl⟩ := List.mem_map.mp he
      have := hpath e0 ((objectOrder_perm _).mem_iff.mp he0)
      simp only [withForwardSlashes, Option.isSome_map']
      exact this
    have hfix : (objectOrder ((objectOrder s.managedBots).map withForwardSlashes)).map withForwardSlashes
        = (objectOrder s.managedBots).map withForwardSlashes := by
      rw [objectOrder_map withForwardSlashes (fun _ => rfl), objectOrder_idem, List.map_map]
      apply List.map_congr_left
      intro e _
      exact withForwardSlashes_idem e
    have step := ih
      { managedBots := (objectOrder s.managedBots).map withForwardSlashes,
        disk := some ((objectOrder s.managedBots).map withForwardSlashes),
        trace := s.trace ++
          [Event.saveInvoked,
           Event.call (registryWrite ((objectOrder s.managedBots).map withForwardSlashes)) true,
           Event.call (Call.readFile "managed_bots.json") true] }
      hk2 hp2
    rw [hfix] at step
    have hun : saveLoadCycles env (k + 1 + 1) s =
        saveLoadCycles env (k + 1)
          { managedBots := (objectOrder s.managedBots).map withForwardSlashes,
            disk := some ((objectOrder s.managedBots).map withForwardSlashes),
            trace := s.trace ++
              [Event.saveInvoked,
               Event.call (registryWrite ((objectOrder s.managedBots).map withForwardSlashes)) true,
               Event.call (Call.readFile "managed_bots.json") true] } := by
      conv_lhs => unfold saveLoadCycles
      simp only [bind_run, saveThenLoad_run env s hw hr hmap hpath]
    rw [hun]
    exact step

/-! ## Runs of the launcher and the terminator -/

theorem startBot_absent (h : Host) (env : Env) (n : String) (s : St)
    (hget : mapGet s.managedBots n = none) :
    startBot h env n s = (Completion.threw (JsError.startNotFound n), s) := by
  simp [startBot, bind_run, getBots, hget, raise]

theorem startBot_running (h : Host) (env : Env) (n : String) (s : St) (bot : BotInfo)
    (hget : mapGet s.managedBots n = some bot) (hst : bot.status = Status.running) :
    startBot h env n s = (Completion.threw (JsError.alreadyRunning n), s) := by
  simp [startBot, bind_run, getBots, hget, raise, hst]

theorem startBot_no_path (h : Host) (env : Env) (n : String) (s : St) (bot : BotInfo)
    (hget : mapGet s.managedBots n = some bot) (hst : bot.status = Status.stopped)
    (hp : bot.filePath = none) :
    startBot h env n s = (Completion.threw (JsError.typeError "replace"), s) := by
  simp [startBot, bind_run, getBots, hget, raise, hst, hp]

/-- The run of `startBot` on a stopped bot with an entry path. -/
theorem startBot_stopped (h : Host) (env : Env) (n : String) (s : St) (bot : BotInfo) (p : String)
    (hget : mapGet s.managedBots n = some bot) (hst : bot.status = Status.stopped)
    (hp : bot.filePath = some p) :
    startBot h env n s =
      match env.access with
      | some _ =>
        (Completion.threw (JsError.startFailed n (JsError.manifestMissing (h.dirname (normalizeSlashes p)))),
          { s with trace := s.trace ++ [Event.call
              (Call.access (h.join [h.dirname (normalizeSlashes p), "package.json"])) false] })
      | none =>
        match env.npm with
        | NpmOutcome.error e =>
          (Completion.threw (JsError.startFailed n (JsError.npmSpawnFailed e)),
            { s with trace := s.trace ++ (launchEvents h p).take 2 })
        | NpmOutcome.close code =>
          if code = some 0 then
            finishWith env (Reply.started n) (JsError.startFailed n)
              (saveManagedBots env
                { managedBots := assignStatus s.managedBots n Status.running, disk := s.disk,
                  trace := s.trace ++ launchEvents h p })
          else
            (Completion.threw (JsError.startFailed n (JsError.npmInstallFailed code)),
              { s with trace := s.trace ++ (launchEvents h p).take 2 }) := by
  cases ha : env.access with
  | some e => simp [startBot, getBots, hget, hst, hp, tryCatchM, perform, bind_run, record, raise, ha]
  | none =>
    cases hn : env.npm with
    | error e =>
      simp [startBot, getBots, hget, hst, hp, tryCatchM, perform, bind_run, record, raise, ha, hn,
        npmInstall, spawn, launchEvents]
    | close code =>
      by_cases hc : code = some 0
      · subst hc
        simp only [startBot, getBots, hget, hst, hp, tryCatchM, perform, bind_run, record, raise, ha, hn,
          npmInstall, spawn, pure_run, setBots, reply, reduceIte, reduceCtorEq, List.append_assoc,
          List.singleton_append, List.cons_append, List.nil_append, launchEvents, finishWith]
        cases saveManagedBots env _ with
        | mk c s1 =>
          cases c with
          | threw e => simp
          | returned v =>
            cases hr : env.reply <;> simp [bind_run, record, raise]
      · simp [startBot, getBots, hget, hst, hp, tryCatchM, perform, bind_run, record, raise, ha, hn,
          npmInstall, spawn, hc, launchEvents]

/-- What a successful `startBot` did. -/
theorem startBot_returned (h : Host) (env : Env) (n : String) (s : St)
    (hok : (startBot h env n s).1 = Completion.returned ()) :
    ∃ bot p mapped, mapGet s.managedBots n = some bot ∧ bot.status = Status.stopped ∧
      bot.filePath = some p ∧
      saveRecords (assignStatus s.managedBots n Status.running) = some mapped ∧
      (startBot h env n s).2 =
        { managedBots := assignStatus s.managedBots n Status.running,
          disk := some (makeObject mapped),
          trace := s.trace ++ (launchEvents h p ++
            [Event.saveInvoked, Event.call (registryWrite (makeObject mapped)) true,
             Event.call (Call.reply (Reply.started n)) true]) } := by
  cases hget : mapGet s.managedBots n with
  | none => rw [startBot_absent h env n s hget] at hok; simp at hok
  | some bot =>
    cases hst : bot.status with
    | running => rw [startBot_running h env n s bot hget hst] at hok; simp at hok
    | stopped =>
      cases hp : bot.filePath with
      | none => rw [startBot_no_path h env n s bot hget hst hp] at hok; simp at hok
      | some p =>
        refine ⟨bot, p, ?_⟩
        rw [startBot_stopped h env n s bot p hget hst hp] at hok ⊢
        cases ha : env.access with
        | some e => simp [ha] at hok
        | none =>
          cases hn : env.npm with
          | error e => simp [ha, hn] at hok
          | close code =>
            by_cases hc : code = some 0
            · simp only [ha, hn, hc, reduceIte, saveManagedBots_run, finishWith] at hok ⊢
              cases hs : saveRecords (assignStatus s.managedBots n Status.running) with
              | none => simp [hs] at hok
              | some mapped =>
                cases hw : env.writeRegistry with
                | some e => simp [hs, hw] at hok
                | none =>
                  cases hr : env.reply with
                  | some e => simp [hs, hw, hr] at hok
                  | none => exact ⟨mapped, trivial, hst, hp, rfl, by simp [hs, hw, hr]⟩
            · simp [ha, hn, hc] at hok

theorem stopBot_absent (h : Host) (env : Env) (n : String) (s : St)
    (hget : mapGet s.managedBots n = none) :
    stopBot h env n s = (Completion.threw (JsError.stopNotFound n), s) := by
  simp [stopBot, bind_run, getBots, hget, raise]

theorem stopBot_stopped (h : Host) (env : Env) (n : String) (s : St) (bot : BotInfo)
    (hget : mapGet s.managedBots n = some bot) (hst : bot.status = Status.stopped) :
    stopBot h env n s = (Completion.threw (JsError.notRunning n), s) := by
  simp [stopBot, bind_run, getBots, hget, raise, hst]

/-- The run of `stopBot` on a running bot. -/
theorem stopBot_running (h : Host) (env : Env) (n : String) (s : St) (bot : BotInfo)
    (hget : mapGet s.managedBots n = some bot) (hst : bot.status = Status.running) :
    stopBot h env n s =
      finishWith env (Reply.stopped n) (JsError.stopFailed n)
        (saveManagedBots env
          { managedBots := assignStatus s.managedBots n Status.stopped, disk := s.disk,
            trace := s.trace ++ [killEvent h] }) := by
  have hk : spawnKill h s = (Completion.returned (), { s with trace := s.trace ++ [killEvent h] }) := by
    cases hw : h.win32 <;> simp [spawnKill, spawn, record, killEvent, hw]
  simp only [stopBot, getBots, hget, hst, tryCatchM, bind_run, hk, setBots, reply, ne_eq,
    not_true_eq_false, reduceIte, finishWith]
  cases saveManagedBots env _ with
  | mk c s1 =>
    cases c with
    | threw e => simp [raise]
    | returned v => cases hr : env.reply <;> simp [bind_run, record, raise, perform]

/-- What a successful `stopBot` did. -/
theorem stopBot_returned (h : Host) (env : Env) (n : String) (s : St)
    (hok : (stopBot h env n s).1 = Completion.returned ()) :
    ∃ bot mapped, mapGet s.managedBots n = some bot ∧ bot.status = Status.running ∧
      saveRecords (assignStatus s.managedBots n Status.stopped) = some mapped ∧
      (stopBot h env n s).2 =
        { managedBots := assignStatus s.managedBots n Status.stopped,
          disk := some (makeObject mapped),
          trace := s.trace ++
            [killEvent h, Event.saveInvoked, Event.call (registryWrite (makeObject mapped)) true,
             Event.call (Call.reply (Reply.stopped n)) true] } := by
  cases hget : mapGet s.managedBots n with
  | none => rw [stopBot_absent h env n s hget] at hok; simp at hok
  | some bot =>
    cases hst : bot.status with
    | stopped => rw [stopBot_stopped h env n s bot hget hst] at hok; simp at hok
    | running =>
      refine ⟨bot, ?_⟩
      rw [stopBot_running h env n s bot hget hst] at hok ⊢
      simp only [saveManagedBots_run, finishWith] at hok ⊢
      cases hs : saveRecords (assignStatus s.managedBots n Status.stopped) with
      | none => simp [hs] at hok
      | some mapped =>
        cases hw : env.writeRegistry with
        | some e => simp [hs, hw] at hok
        | none =>
          cases hr : env.reply with
          | some e => simp [hs, hw, hr] at hok
          | none => exact ⟨mapped, trivial, hst, rfl, by simp [hs, hw, hr]⟩

/-- The record of `n` in the document of a registry with one key each. -/
theorem mapGet_document (m mapped : Entries) (n : String) (hmap : (keys m).Nodup)
    (hs : saveRecords m = some mapped) :
    mapGet (makeObject mapped) n
      = (mapGet m n).map (fun b => { b with filePath := b.filePath.map normalizeSlashes }) := by
  obtain ⟨_, rfl⟩ := saveRecords_some m mapped hs
  rw [mapGet_makeObject _ n (by rw [keys_map_withForwardSlashes]; exact hmap)]
  exact mapGet_map (fun b => { b with filePath := b.filePath.map normalizeSlashes }) m n

theorem newEvents_append (s : St) (m : Entries) (d : Option Entries) (added : List Event) :
    newEvents s { managedBots := m, disk := d, trace := s.trace ++ added } = added := by
  simp [newEvents]

/-! ## The claims on starting and stopping -/

/-- C1: `startBot(n)` fails with the not-found error when `n` is absent, and
with the already-running error, leaving the state as it was, when `n` is
Running.  Whenever `startBot(n)` succeeds, `n` was present with status
Stopped, `n` has status Running afterwards, and `saveManagedBots` has run and
has written the document of that registry, in which `n` is Running. -/
theorem startBot_contract (h : Host) (env : Env) (n : String) (s : St)
    (hmap : (keys s.managedBots).Nodup) :
    (mapGet s.managedBots n = none →
      startBot h env n s = (Completion.threw (JsError.startNotFound n), s)) ∧
    (∀ bot, mapGet s.managedBots n = some bot → bot.status = Status.running →
      startBot h env n s = (Completion.threw (JsError.alreadyRunning n), s)) ∧
    ((startBot h env n s).1 = Completion.returned () →
      (∃ bot, mapGet s.managedBots n = some bot ∧ bot.status = Status.stopped) ∧
      (∃ bot, mapGet (startBot h env n s).2.managedBots n = some bot ∧
        bot.status = Status.running) ∧
      (∃ doc bot, documentOf (startBot h env n s).2.managedBots = some doc ∧
        (startBot h env n s).2.disk = some doc ∧
        Event.saveInvoked ∈ newEvents s (startBot h env n s).2 ∧
        Event.call (registryWrite doc) true ∈ newEvents s (startBot h env n s).2 ∧
        mapGet doc n = some bot ∧ bot.status = Status.running)) := by
  refine ⟨startBot_absent h env n s, startBot_running h env n s, ?_⟩
  intro hok
  obtain ⟨bot, p, mapped, hget, hst, _, hs, hafter⟩ := startBot_returned h env n s hok
  have hrun : mapGet (assignStatus s.managedBots n Status.running) n
      = some { bot with status := Status.running } := by
    rw [mapGet_assignStatus, hget]; rfl
  have hk : (keys (assignStatus s.managedBots n Status.running)).Nodup := by
    rw [keys_assignStatus]; exact hmap
  refine ⟨⟨bot, hget, hst⟩, ?_, ?_⟩
  · rw [hafter]
    exact ⟨_, hrun, rfl⟩
  · refine ⟨makeObject mapped,
      { bot with status := Status.running, filePath := bot.filePath.map normalizeSlashes }, ?_⟩
    rw [hafter, newEvents_append]
    refine ⟨by simp [documentOf, hs], rfl, by simp [launchEvents], by simp [launchEvents], ?_, rfl⟩
    rw [mapGet_document _ mapped n hk hs, hrun]
    rfl

/-- C2: `stopBot(n)` fails with the not-found error when `n` is absent and
with the not-running error when `n` is Stopped.  Whenever `stopBot(n)`
succeeds, `n` was present with status Running, `n` has status Stopped
afterwards, and `saveManagedBots` has run and has written the document of
that registry, in which `n` is Stopped. -/
theorem stopBot_contract (h : Host) (env : Env) (n : String) (s : St)
    (hmap : (keys s.managedBots).Nodup) :
    (mapGet s.managedBots n = none →
      stopBot h env n s = (Completion.threw (JsError.stopNotFound n), s)) ∧
    (∀ bot, mapGet s.managedBots n = some bot → bot.status = Status.stopped →
      stopBot h env n s = (Completion.threw (JsError.notRunning n), s)) ∧
    ((stopBot h env n s).1 = Completion.returned () →
      (∃ bot, mapGet s.managedBots n = some bot ∧ bot.status = Status.running) ∧
      (∃ bot, mapGet (stopBot h env n s).2.managedBots n = some bot ∧
        bot.status = Status.stopped) ∧
      (∃ doc bot, documentOf (stopBot h env n s).2.managedBots = some doc ∧
        (stopBot h env n s).2.disk = some doc ∧
        Event.saveInvoked ∈ newEvents s (stopBot h env n s).2 ∧
        Event.call (registryWrite doc) true ∈ newEvents s (stopBot h env n s).2 ∧
        mapGet doc n = some bot ∧ bot.status = Status.stopped)) := by
  refine ⟨stopBot_absent h env n s, stopBot_stopped h env n s, ?_⟩
  intro hok
  obtain ⟨bot, mapped, hget, hst, hs, hafter⟩ := stopBot_returned h env n s hok
  have hrun : mapGet (assignStatus s.managedBots n Status.stopped) n
      = some { bot with status := Status.stopped } := by
    rw [mapGet_assignStatus, hget]; rfl
  have hk : (keys (assignStatus s.managedBots n Status.stopped)).Nodup := by
    rw [keys_assignStatus]; exact hmap
  refine ⟨⟨bot, hget, hst⟩, ?_, ?_⟩
  · rw [hafter]
    exact ⟨_, hrun, rfl⟩
  · refine ⟨makeObject mapped,
      { bot with status := Status.stopped, filePath := bot.filePath.map normalizeSlashes }, ?_⟩
    rw [hafter, newEvents_append]
    refine ⟨by simp [documentOf, hs], rfl, by simp, by simp, ?_, rfl⟩
    rw [mapGet_document _ mapped n hk hs, hrun]
    rfl

/-- C6: let `n` be Stopped with entry path `p`.  If `package.json` cannot be
accessed in the directory of `p`, `startBot(n)` fails with the
missing-manifest error (line 322, inside the error of line 361); if
`npm install` closes with a code other than 0, or emits `error`,
`startBot(n)` fails with the error of that case (lines 336 and 340).  In each
of these cases the registry and the registry file are as before (so `n` is
still Stopped), no bot process is spawned, and no save is performed. -/
theorem startBot_install_failure (h : Host) (env : Env) (n : String) (s : St) (bot : BotInfo)
    (p : String) (hget : mapGet s.managedBots n = some bot) (hst : bot.status = Status.stopped)
    (hp : bot.filePath = some p) :
    (env.access ≠ none →
      (startBot h env n s).1 = Completion.threw
        (JsError.startFailed n (JsError.manifestMissing (h.dirname (normalizeSlashes p))))) ∧
    (env.access = none → ∀ code, env.npm = NpmOutcome.close code → code ≠ some 0 →
      (startBot h env n s).1 = Completion.threw
        (JsError.startFailed n (JsError.npmInstallFailed code))) ∧
    (env.access = none → ∀ e, env.npm = NpmOutcome.error e →
      (startBot h env n s).1 = Completion.threw
        (JsError.startFailed n (JsError.npmSpawnFailed e))) ∧
    ((env.access ≠ none ∨ env.npm ≠ NpmOutcome.close (some 0)) →
      (∃ e, (startBot h env n s).1 = Completion.threw e) ∧
      (startBot h env n s).2.managedBots = s.managedBots ∧
      (∃ b, mapGet (startBot h env n s).2.managedBots n = some b ∧ b.status = Status.stopped) ∧
      (startBot h env n s).2.disk = s.disk ∧
      (∀ e ∈ newEvents s (startBot h env n s).2, isBotLaunch e = false ∧ isSave e = false)) := by
  rw [startBot_stopped h env n s bot p hget hst hp]
  refine ⟨?_, ?_, ?_, ?_⟩
  · intro ha
    cases hacc : env.access with
    | none => exact absurd hacc ha
    | some e => rfl
  · intro ha code hn hc
    simp [ha, hn, hc]
  · intro ha e hn
    simp [ha, hn]
  · intro hfail
    cases hacc : env.access with
    | some e =>
      refine ⟨⟨_, rfl⟩, rfl, ⟨bot, hget, hst⟩, rfl, ?_⟩
      simp [newEvents, isBotLaunch, isSave]
    | none =>
      cases hn : env.npm with
      | error e =>
        refine ⟨⟨_, rfl⟩, rfl, ⟨bot, hget, hst⟩, rfl, ?_⟩
        simp [newEvents, isBotLaunch, isSave, launchEvents]
      | close code =>
        have hc : code ≠ some 0 := by
          intro hc
          rcases hfail with h1 | h1
          · exact h1 hacc
          · exact h1 (by rw [hn, hc])
        dsimp only
        rw [if_neg hc]
        refine ⟨⟨_, rfl⟩, rfl, ⟨bot, hget, hst⟩, rfl, ?_⟩
        simp [newEvents, isBotLaunch, isSave, launchEvents]

/-! ## Runs of the provisioner -/

theorem createBot_existing (h : Host) (env : Env) (n c : String) (s : St)
    (hhas : mapHas s.managedBots n = true) :
    createBot h env n c s = (Completion.threw (JsError.alreadyExists n), s) := by
  simp [createBot, bind_run, getBots, hhas, raise]

/-- The run of `createBot` for a name that is not in the registry. -/
theorem createBot_fresh (h : Host) (env : Env) (n c : String) (s : St)
    (hhas : mapHas s.managedBots n = false) :
    createBot h env n c s =
      match (runCalls (provisionCalls h n c) (provisionOutcomes env)).2 with
      | some e =>
        (Completion.threw (JsError.createFailed e),
          { s with trace := s.trace ++ (runCalls (provisionCalls h n c) (provisionOutcomes env)).1 })
      | none =>
        finishWith env (Reply.created n) JsError.createFailed
          (saveManagedBots env
            { managedBots := s.managedBots ++ [newRecord h n c], disk := s.disk,
              trace := s.trace ++ (provisionCalls h n c).map (fun call => Event.call call true) }) := by
  have hkey : n ∉ keys s.managedBots := by
    rw [← mapGet_eq_none_iff]
    simpa [mapHas] using hhas
  have hset := mapSet_append s.managedBots n
    { token := c, status := Status.stopped, filePath := some (h.join [h.join ["bots", n], "index.js"]) }
    hkey
  cases h1 : env.cp with
  | some e =>
    simp [createBot, getBots, hhas, tryCatchM, perform, bind_run, record, raise, h1, runCalls,
      provisionCalls, provisionOutcomes]
  | none =>
    cases h2 : env.mkdir with
    | some e =>
      simp [createBot, getBots, hhas, tryCatchM, perform, bind_run, record, raise, h1, h2, runCalls,
        provisionCalls, provisionOutcomes]
    | none =>
      cases h3 : env.writeScaffold with
      | some e =>
        simp [createBot, getBots, hhas, tryCatchM, perform, bind_run, record, raise, h1, h2, h3,
          runCalls, provisionCalls, provisionOutcomes]
      | none =>
        cases h4 : env.readConfig with
        | some e =>
          simp [createBot, getBots, hhas, tryCatchM, perform, bind_run, record, raise, h1, h2, h3, h4,
            runCalls, provisionCalls, provisionOutcomes]
        | none =>
          cases h5 : env.writeConfig with
          | some e =>
            simp [createBot, getBots, hhas, tryCatchM, perform, bind_run, record, raise, h1, h2, h3,
              h4, h5, runCalls, provisionCalls, provisionOutcomes]
          | none =>
            simp only [createBot, getBots, hhas, tryCatchM, perform, bind_run, record, raise, h1, h2,
              h3, h4, h5, runCalls, provisionCalls, provisionOutcomes, setBots, reply, hset, newRecord,
              List.map_cons, List.map_nil, List.append_assoc, List.singleton_append,
              List.cons_append, List.nil_append, Bool.false_eq_true, reduceIte, finishWith]
            cases saveManagedBots env _ with
            | mk r s1 =>
              cases r with
              | threw e => simp
              | returned v => cases hr : env.reply <;> simp [bind_run, record, raise]

/-! ## The end of a mutating operation -/

theorem finishWith_save_run (env : Env) (text : Reply) (wrap : JsError → JsError) (s : St) :
    finishWith env text wrap (saveManagedBots env s) =
      match saveRecords s.managedBots with
      | none =>
        (Completion.threw (wrap (JsError.saveFailed (JsError.typeError "replace"))),
          { s with trace := s.trace ++ [Event.saveInvoked] })
      | some mapped =>
        match env.writeRegistry with
        | some e =>
          (Completion.threw (wrap (JsError.saveFailed e)),
            { s with trace := s.trace ++
                [Event.saveInvoked, Event.call (registryWrite (makeObject mapped)) false] })
        | none =>
          match env.reply with
          | none =>
            (Completion.returned (),
              { managedBots := s.managedBots, disk := some (makeObject mapped),
                trace := s.trace ++
                  [Event.saveInvoked, Event.call (registryWrite (makeObject mapped)) true,
                   Event.call (Call.reply text) true] })
          | some e =>
            (Completion.threw (wrap e),
              { managedBots := s.managedBots, disk := some (makeObject mapped),
                trace := s.trace ++
                  [Event.saveInvoked, Event.call (registryWrite (makeObject mapped)) true,
                   Event.call (Call.reply text) false] }) := by
  rw [saveManagedBots_run]
  cases saveRecords s.managedBots with
  | none => simp [finishWith]
  | some mapped =>
    cases env.writeRegistry with
    | some e => simp [finishWith]
    | none => cases hr : env.reply <;> simp [finishWith, hr]

theorem finishWith_save_bots (env : Env) (text : Reply) (wrap : JsError → JsError) (s : St) :
    (finishWith env text wrap (saveManagedBots env s)).2.managedBots = s.managedBots := by
  rw [finishWith_save_run]
  cases saveRecords s.managedBots with
  | none => rfl
  | some mapped =>
    cases env.writeRegistry with
    | some e => rfl
    | none => cases env.reply <;> rfl

/-- A save that was reached is the first new event, and it is entered once. -/
theorem finishWith_save_trace (env : Env) (text : Reply) (wrap : JsError → JsError) (s : St) :
    ∃ added, (finishWith env text wrap (saveManagedBots env s)).2.trace
        = s.trace ++ Event.saveInvoked :: added ∧ Event.saveInvoked ∉ added := by
  rw [finishWith_save_run]
  cases saveRecords s.managedBots with
  | none => exact ⟨[], rfl, by simp⟩
  | some mapped =>
    cases env.writeRegistry with
    | some e => exact ⟨_, rfl, by simp⟩
    | none => cases env.reply <;> exact ⟨_, rfl, by simp⟩

/-! ## Runs of stop-all -/

theorem stopRunning_stopped (m : Entries) : ∀ e ∈ stopRunning m, e.2.status = Status.stopped := by
  intro e he
  obtain ⟨e0, _, rfl⟩ := List.mem_map.mp he
  cases hs : e0.2.status <;> simp [hs]

theorem identityOf_stopRunning (m : Entries) : (stopRunning m).map identityOf = m.map identityOf := by
  unfold stopRunning
  rw [List.map_map]
  apply List.map_congr_left
  intro e _
  cases hs : e.2.status <;> simp [identityOf, hs]

theorem stopRunning_of_none (m : Entries) (h : ∀ e ∈ m, e.2.status = Status.stopped) :
    stopRunning m = m := by
  unfold stopRunning
  conv_rhs => rw [← List.map_id m]
  apply List.map_congr_left
  intro e he
  simp [h e he]

theorem no_running_iff (m : Entries) :
    (m.filter (fun e => e.2.status = Status.running)).length = 0
      ↔ ∀ e ∈ m, e.2.status = Status.stopped := by
  rw [List.length_eq_zero, List.filter_eq_nil_iff]
  constructor
  · intro h e he
    have := h e he
    cases hs : e.2.status with
    | stopped => rfl
    | running => simp [hs] at this
  · intro h e he
    simp [h e he]

/-- The run of `handleStopAllBots` for an administrator. -/
theorem handleStopAllBots_admin (h : Host) (env : Env) (message : Message) (s : St)
    (hadm : message.member = some true) :
    handleStopAllBots h env message s =
      if (s.managedBots.filter (fun e => e.2.status = Status.running)).length = 0 then
        match env.reply with
        | none =>
          (Completion.returned (),
            { s with trace := s.trace ++ [Event.call (Call.reply Reply.noneRunning) true] })
        | some e =>
          (Completion.threw e,
            { s with trace := s.trace ++ [Event.call (Call.reply Reply.noneRunning) false] })
      else
        finishWith env
          (Reply.stoppedAll (s.managedBots.filter (fun e => e.2.status = Status.running)).length)
          JsError.stopAllFailed
          (saveManagedBots env
            { managedBots := stopRunning s.managedBots, disk := s.disk,
              trace := s.trace ++ [killEvent h] }) := by
  have hk : spawnKill h s = (Completion.returned (), { s with trace := s.trace ++ [killEvent h] }) := by
    cases hw : h.win32 <;> simp [spawnKill, spawn, record, killEvent, hw]
  by_cases hz : (s.managedBots.filter (fun e => e.2.status = Status.running)).length = 0
  · rw [if_pos hz]
    cases hr : env.reply <;>
      simp [handleStopAllBots, hasAdministrator, hadm, bind_run, pure_run, getBots, hz, reply,
        perform, record, raise, hr]
  · rw [if_neg hz]
    simp only [handleStopAllBots, hasAdministrator, hadm, bind_run, pure_run, getBots, hz, reply,
      tryCatchM, hk, setBots, finishWith, Bool.not_true, Bool.false_eq_true, reduceIte]
    cases saveManagedBots env _ with
    | mk r s1 =>
      cases r with
      | threw e => simp [raise]
      | returned v => cases hr : env.reply <;> simp [bind_run, record, raise, perform]

/-! ## The claim on stop-all -/

/-- C5: for an administrator, `handleStopAllBots` leaves every unit with
status Stopped and leaves names, credentials and entry paths as they were.
If a unit was Running, `saveManagedBots` is entered exactly once.  If no unit
was Running, the registry and the registry file are unchanged, nothing is
saved, and the call returns when its reply is delivered (the only error it
can end with is the rejection of that reply).  A second stop-all leaves the
registry of the first. -/
theorem handleStopAllBots_contract (h : Host) (env : Env) (message : Message) (s : St)
    (hadm : message.member = some true) :
    (∀ e ∈ (handleStopAllBots h env message s).2.managedBots, e.2.status = Status.stopped) ∧
    (handleStopAllBots h env message s).2.managedBots.map identityOf
      = s.managedBots.map identityOf ∧
    ((∃ e ∈ s.managedBots, e.2.status = Status.running) →
      (newEvents s (handleStopAllBots h env message s).2).count Event.saveInvoked = 1) ∧
    ((∀ e ∈ s.managedBots, e.2.status = Status.stopped) →
      (handleStopAllBots h env message s).2.managedBots = s.managedBots ∧
      (handleStopAllBots h env message s).2.disk = s.disk ∧
      (∀ e ∈ newEvents s (handleStopAllBots h env message s).2, isSave e = false) ∧
      (env.reply = none → (handleStopAllBots h env message s).1 = Completion.returned ()) ∧
      (∀ e, (handleStopAllBots h env message s).1 = Completion.threw e → env.reply = some e)) ∧
    (∀ env2, (handleStopAllBots h env2 message (handleStopAllBots h env message s).2).2.managedBots
      = (handleStopAllBots h env message s).2.managedBots) := by
  have hall : ∀ e ∈ (handleStopAllBots h env message s).2.managedBots,
      e.2.status = Status.stopped := by
    rw [handleStopAllBots_admin h env message s hadm]
    by_cases hz : (s.managedBots.filter (fun e => e.2.status = Status.running)).length = 0
    · rw [if_pos hz]
      have hs := (no_running_iff s.managedBots).mp hz
      cases env.reply <;> exact hs
    · rw [if_neg hz, finishWith_save_bots]
      exact stopRunning_stopped s.managedBots
  have hquiet : ∀ (env1 : Env) (s1 : St), (∀ e ∈ s1.managedBots, e.2.status = Status.stopped) →
      (handleStopAllBots h env1 message s1).2.managedBots = s1.managedBots := by
    intro env1 s1 hs
    rw [handleStopAllBots_admin h env1 message s1 hadm,
      if_pos ((no_running_iff s1.managedBots).mpr hs)]
    cases env1.reply <;> rfl
  refine ⟨hall, ?_, ?_, ?_, fun env2 => hquiet env2 _ hall⟩
  · rw [handleStopAllBots_admin h env message s hadm]
    by_cases hz : (s.managedBots.filter (fun e => e.2.status = Status.running)).length = 0
    · rw [if_pos hz]
      cases env.reply <;> rfl
    · rw [if_neg hz, finishWith_save_bots]
      exact identityOf_stopRunning s.managedBots
  · intro hrun
    have hz : ¬ (s.managedBots.filter (fun e => e.2.status = Status.running)).length = 0 := by
      intro hz
      obtain ⟨e, he, hst⟩ := hrun
      have := (no_running_iff s.managedBots).mp hz e he
      rw [hst] at this
      exact absurd this (by decide)
    rw [handleStopAllBots_admin h env message s hadm, if_neg hz]
    obtain ⟨added, htr, hnot⟩ := finishWith_save_trace env
      (Reply.stoppedAll (s.managedBots.filter (fun e => e.2.status = Status.running)).length)
      JsError.stopAllFailed
      { managedBots := stopRunning s.managedBots, disk := s.disk, trace := s.trace ++ [killEvent h] }
    have hkill : killEvent h ≠ Event.saveInvoked := by
      cases hw : h.win32 <;> simp [killEvent, hw]
    simp only [newEvents, htr, List.append_assoc, List.drop_left, List.singleton_append,
      List.count_cons_self, List.count_cons_of_ne hkill.symm, List.count_eq_zero_of_not_mem hnot]
  · intro hs
    have hz := (no_running_iff s.managedBots).mpr hs
    rw [handleStopAllBots_admin h env message s hadm, if_pos hz]
    cases hr : env.reply with
    | none => simp [newEvents, isSave]
    | some e => simp [newEvents, isSave]

/-! ## The claims on creating a bot -/

/-- A successful rewrite of the configuration document among the new events
means that every call before the insertion succeeded. -/
theorem createBot_provisioned (h : Host) (env : Env) (n c : String) (s : St)
    (hhas : mapHas s.managedBots n = false)
    (hcfg : Event.call (Call.writeFile (h.join [h.join ["bots", n], "config.json"])
      (Content.config c)) true ∈ newEvents s (createBot h env n c s).2) :
    (runCalls (provisionCalls h n c) (provisionOutcomes env)).2 = none := by
  rw [createBot_fresh h env n c s hhas] at hcfg
  cases h1 : env.cp with
  | some e => simp [h1, runCalls, provisionCalls, provisionOutcomes, newEvents] at hcfg
  | none =>
    cases h2 : env.mkdir with
    | some e => simp [h1, h2, runCalls, provisionCalls, provisionOutcomes, newEvents] at hcfg
    | none =>
      cases h3 : env.writeScaffold with
      | some e => simp [h1, h2, h3, runCalls, provisionCalls, provisionOutcomes, newEvents] at hcfg
      | none =>
        cases h4 : env.readConfig with
        | some e =>
          simp [h1, h2, h3, h4, runCalls, provisionCalls, provisionOutcomes, newEvents] at hcfg
        | none =>
          cases h5 : env.writeConfig with
          | some e =>
            simp [h1, h2, h3, h4, h5, runCalls, provisionCalls, provisionOutcomes, newEvents] at hcfg
          | none => simp [h1, h2, h3, h4, h5, runCalls, provisionOutcomes, provisionCalls]

/-- C3: if `n` is a key of the registry, `createBot(n, c)` fails with the
duplicate-name error and the state is unchanged.  Otherwise, when the
template copy, the read and the rewrite of the configuration document and the
write of the registry file all succeed, the registry is the prior registry
followed by one new record: key `n`, status Stopped, credential `c`, and
entry path `join(join('bots', n), 'index.js')`, which on a POSIX host is
`join('bots', n, 'index.js')`. -/
theorem createBot_contract (h : Host) (env : Env) (n c : String) (s : St) :
    (mapHas s.managedBots n = true →
      createBot h env n c s = (Completion.threw (JsError.alreadyExists n), s)) ∧
    (mapHas s.managedBots n = false →
      Event.call (Call.cp (h.join ["bots", "az"]) (h.join ["bots", n])) true
        ∈ newEvents s (createBot h env n c s).2 →
      Event.call (Call.readFile (h.join [h.join ["bots", n], "config.json"])) true
        ∈ newEvents s (createBot h env n c s).2 →
      Event.call (Call.writeFile (h.join [h.join ["bots", n], "config.json"]) (Content.config c)) true
        ∈ newEvents s (createBot h env n c s).2 →
      (∃ doc, Event.call (registryWrite doc) true ∈ newEvents s (createBot h env n c s).2) →
      (createBot h env n c s).2.managedBots =
        s.managedBots ++
          [(n, { token := c, status := Status.stopped,
                 filePath := some (h.join [h.join ["bots", n], "index.js"]) })]) ∧
    posixHost.join [posixHost.join ["bots", n], "index.js"]
      = posixHost.join ["bots", n, "index.js"] := by
  refine ⟨createBot_existing h env n c s, ?_, posixJoin_nested n⟩
  intro hhas _ _ hcfg _
  have hrun := createBot_provisioned h env n c s hhas hcfg
  rw [createBot_fresh h env n c s hhas]
  simp only [hrun, finishWith_save_bots, newRecord]

/-- C9, as the code has it: when `createBot(n, c)` succeeds, its external
calls are, in order: the copy of `join('bots', 'az')` to `join('bots', n)`;
`mkdir` of `join('bots', 'az', 'bots')`; the write of the placeholder to
`join(join('bots', 'az', 'bots'), 'index.js')`; the read and the rewrite of
`join(join('bots', n), 'config.json')`; the write of the registry file; the
reply.  So the scaffold directory and the placeholder are two fixed paths,
the same for every `n`, and on a POSIX host they lie inside the template
directory `bots/az`. -/
theorem createBot_scaffold_in_template (h : Host) (env : Env) (n c : String) (s : St)
    (hok : (createBot h env n c s).1 = Completion.returned ()) :
    (∃ doc, newEvents s (createBot h env n c s).2 =
      [Event.call (Call.cp (h.join ["bots", "az"]) (h.join ["bots", n])) true,
       Event.call (Call.mkdir (h.join ["bots", "az", "bots"])) true,
       Event.call (Call.writeFile (h.join [h.join ["bots", "az", "bots"], "index.js"])
         Content.scaffold) true,
       Event.call (Call.readFile (h.join [h.join ["bots", n], "config.json"])) true,
       Event.call (Call.writeFile (h.join [h.join ["bots", n], "config.json"])
         (Content.config c)) true,
       Event.saveInvoked,
       Event.call (registryWrite doc) true,
       Event.call (Call.reply (Reply.created n)) true]) ∧
    isInside (posixHost.join ["bots", "az"]) (posixHost.join ["bots", "az", "bots"]) = true ∧
    isInside (posixHost.join ["bots", "az"])
      (posixHost.join [posixHost.join ["bots", "az", "bots"], "index.js"]) = true := by
  refine ⟨?_, by decide, by decide⟩
  cases hhas : mapHas s.managedBots n with
  | true => rw [createBot_existing h env n c s hhas] at hok; simp at hok
  | false =>
    rw [createBot_fresh h env n c s hhas] at hok ⊢
    cases h1 : env.cp with
    | some e => simp [h1, runCalls, provisionOutcomes, provisionCalls] at hok
    | none =>
      cases h2 : env.mkdir with
      | some e => simp [h1, h2, runCalls, provisionOutcomes, provisionCalls] at hok
      | none =>
        cases h3 : env.writeScaffold with
        | some e => simp [h1, h2, h3, runCalls, provisionOutcomes, provisionCalls] at hok
        | none =>
          cases h4 : env.readConfig with
          | some e => simp [h1, h2, h3, h4, runCalls, provisionOutcomes, provisionCalls] at hok
          | none =>
            cases h5 : env.writeConfig with
            | some e =>
              simp [h1, h2, h3, h4, h5, runCalls, provisionOutcomes, provisionCalls] at hok
            | none =>
              have hrun : (runCalls (provisionCalls h n c) (provisionOutcomes env)).2 = none := by
                simp [h1, h2, h3, h4, h5, runCalls, provisionOutcomes, provisionCalls]
              simp only [hrun, finishWith_save_run] at hok ⊢
              cases hs : saveRecords (s.managedBots ++ [newRecord h n c]) with
              | none => simp [hs] at hok
              | some mapped =>
                cases hw : env.writeRegistry with
                | some e => simp [hs, hw] at hok
                | none =>
                  cases hr : env.reply with
                  | some e => simp [hs, hw, hr] at hok
                  | none =>
                    exact ⟨makeObject mapped, by simp [newEvents, provisionCalls]⟩

/-- C9 as stated fails: on a POSIX host `createBot('alpha', 'tok123')`
succeeds from the empty registry, and the directory it ensures and the
placeholder it writes are `bots/az/bots` and `bots/az/bots/index.js`, which
are not inside the new unit's directory `bots/alpha`. -/
theorem createBot_scaffold_outside_copy :
    (createBot posixHost allSucceed "alpha" "tok123" (initial [] none)).1 = Completion.returned () ∧
    Event.call (Call.mkdir "bots/az/bots") true
      ∈ (createBot posixHost allSucceed "alpha" "tok123" (initial [] none)).2.trace ∧
    Event.call (Call.writeFile "bots/az/bots/index.js" Content.scaffold) true
      ∈ (createBot posixHost allSucceed "alpha" "tok123" (initial [] none)).2.trace ∧
    posixHost.join ["bots", "alpha"] = "bots/alpha" ∧
    isInside "bots/alpha" "bots/az/bots" = false ∧
    isInside "bots/alpha" "bots/az/bots/index.js" = false := by
  decide

/-! ## What a run leaves in memory -/

theorem newEvents_self (s : St) : newEvents s s = [] := by
  simp [newEvents]

theorem newEvents_of_trace (s after : St) (added : List Event)
    (h : after.trace = s.trace ++ added) : newEvents s after = added := by
  simp [newEvents, h]

theorem runCalls_no_save (calls : List Call) (outcomes : List (Option JsError)) :
    Event.saveInvoked ∉ (runCalls calls outcomes).1 := by
  induction calls generalizing outcomes with
  | nil => simp [runCalls]
  | cons c cs ih =>
    cases outcomes with
    | nil => simp [runCalls]
    | cons o os =>
      cases o with
      | none => simp [runCalls, ih os]
      | some e => simp [runCalls]

theorem framed_unchanged (s : St) (changed : Entries) (added : List Event)
    (h : Event.saveInvoked ∉ added) :
    Framed s { s with trace := s.trace ++ added } changed := by
  left
  exact ⟨rfl, by rw [newEvents_of_trace s _ added rfl]; exact h⟩

theorem framed_self (s : St) (changed : Entries) : Framed s s changed := by
  left
  exact ⟨rfl, by simp [newEvents_self]⟩

theorem framed_finish (env : Env) (text : Reply) (wrap : JsError → JsError) (s : St)
    (changed : Entries) (before : List Event) :
    Framed s
      (finishWith env text wrap
        (saveManagedBots env
          { managedBots := changed, disk := s.disk, trace := s.trace ++ before })).2 changed := by
  right
  obtain ⟨added, htr, _⟩ := finishWith_save_trace env text wrap
    { managedBots := changed, disk := s.disk, trace := s.trace ++ before }
  refine ⟨finishWith_save_bots _ _ _ _, ?_⟩
  rw [newEvents_of_trace s _ (before ++ Event.saveInvoked :: added) (by simp [htr])]
  simp

theorem createBot_framed (h : Host) (env : Env) (n c : String) (s : St) :
    Framed s (createBot h env n c s).2 (s.managedBots ++ [newRecord h n c]) := by
  cases hhas : mapHas s.managedBots n with
  | true => rw [createBot_existing h env n c s hhas]; exact framed_self s _
  | false =>
    rw [createBot_fresh h env n c s hhas]
    cases hrun : (runCalls (provisionCalls h n c) (provisionOutcomes env)).2 with
    | some e => exact framed_unchanged s _ _ (runCalls_no_save _ _)
    | none => exact framed_finish env _ _ s _ _

theorem startBot_framed (h : Host) (env : Env) (n : String) (s : St) :
    Framed s (startBot h env n s).2 (assignStatus s.managedBots n Status.running) := by
  cases hget : mapGet s.managedBots n with
  | none => rw [startBot_absent h env n s hget]; exact framed_self s _
  | some bot =>
    cases hst : bot.status with
    | running => rw [startBot_running h env n s bot hget hst]; exact framed_self s _
    | stopped =>
      cases hp : bot.filePath with
      | none => rw [startBot_no_path h env n s bot hget hst hp]; exact framed_self s _
      | some p =>
        rw [startBot_stopped h env n s bot p hget hst hp]
        cases ha : env.access with
        | some e => exact framed_unchanged s _ _ (by simp)
        | none =>
          cases hn : env.npm with
          | error e => exact framed_unchanged s _ _ (by simp [launchEvents])
          | close code =>
            by_cases hc : code = some 0
            · dsimp only
              rw [if_pos hc]
              exact framed_finish env _ _ s _ _
            · dsimp only
              rw [if_neg hc]
              exact framed_unchanged s _ _ (by simp [launchEvents])

theorem stopBot_framed (h : Host) (env : Env) (n : String) (s : St) :
    Framed s (stopBot h env n s).2 (assignStatus s.managedBots n Status.stopped) := by
  cases hget : mapGet s.managedBots n with
  | none => rw [stopBot_absent h env n s hget]; exact framed_self s _
  | some bot =>
    cases hst : bot.status with
    | stopped => rw [stopBot_stopped h env n s bot hget hst]; exact framed_self s _
    | running =>
      rw [stopBot_running h env n s bot hget hst]
      exact framed_finish env _ _ s _ _

theorem handleStopAllBots_framed (h : Host) (env : Env) (message : Message) (s : St) :
    Framed s (handleStopAllBots h env message s).2 (stopRunning s.managedBots) := by
  cases hm : message.member with
  | none =>
    have : handleStopAllBots h env message s = (Completion.threw (JsError.typeError "permissions"), s) := by
      simp [handleStopAllBots, hasAdministrator, hm, bind_run, raise]
    rw [this]; exact framed_self s _
  | some admin =>
    cases admin with
    | false =>
      have : handleStopAllBots h env message s = (Completion.threw JsError.stopAllNeedsAdmin, s) := by
        simp [handleStopAllBots, hasAdministrator, hm, bind_run, pure_run, raise]
      rw [this]; exact framed_self s _
    | true =>
      rw [handleStopAllBots_admin h env message s hm]
      by_cases hz : (s.managedBots.filter (fun e => e.2.status = Status.running)).length = 0
      · rw [if_pos hz]
        cases env.reply with
        | none => exact framed_unchanged s _ _ (by simp)
        | some e => exact framed_unchanged s _ _ (by simp)
      · rw [if_neg hz]
        exact framed_finish env _ _ s _ _

theorem framed_before (s after : St) (changed : Entries) (hf : Framed s after changed)
    (hno : Event.saveInvoked ∉ newEvents s after) : after.managedBots = s.managedBots := by
  rcases hf with h1 | h1
  · exact h1.1
  · exact absurd h1.2 hno

theorem framed_after (s after : St) (changed : Entries) (hf : Framed s after changed)
    (hin : Event.saveInvoked ∈ newEvents s after) : after.managedBots = changed := by
  rcases hf with h1 | h1
  · exact absurd hin h1.2
  · exact h1.1

/-! ## The claim on failures -/

/-- C10, as the code has it: when `createBot`, `startBot`, `stopBot` or
`handleStopAllBots` fails before `saveManagedBots` is entered, the registry in
memory is the one before the call.  When it fails after `saveManagedBots` was
entered (the save itself, or the reply after it, failed), the registry in
memory keeps the change: the new record, or the new status. -/
theorem failure_keeps_registry_before_save (h : Host) (env : Env) (n c : String)
    (message : Message) (s : St) :
    (∀ e, (createBot h env n c s).1 = Completion.threw e →
      (Event.saveInvoked ∉ newEvents s (createBot h env n c s).2 →
        (createBot h env n c s).2.managedBots = s.managedBots) ∧
      (Event.saveInvoked ∈ newEvents s (createBot h env n c s).2 →
        (createBot h env n c s).2.managedBots = s.managedBots ++ [newRecord h n c])) ∧
    (∀ e, (startBot h env n s).1 = Completion.threw e →
      (Event.saveInvoked ∉ newEvents s (startBot h env n s).2 →
        (startBot h env n s).2.managedBots = s.managedBots) ∧
      (Event.saveInvoked ∈ newEvents s (startBot h env n s).2 →
        (startBot h env n s).2.managedBots = assignStatus s.managedBots n Status.running)) ∧
    (∀ e, (stopBot h env n s).1 = Completion.threw e →
      (Event.saveInvoked ∉ newEvents s (stopBot h env n s).2 →
        (stopBot h env n s).2.managedBots = s.managedBots) ∧
      (Event.saveInvoked ∈ newEvents s (stopBot h env n s).2 →
        (stopBot h env n s).2.managedBots = assignStatus s.managedBots n Status.stopped)) ∧
    (∀ e, (handleStopAllBots h env message s).1 = Completion.threw e →
      (Event.saveInvoked ∉ newEvents s (handleStopAllBots h env message s).2 →
        (handleStopAllBots h env message s).2.managedBots = s.managedBots) ∧
      (Event.saveInvoked ∈ newEvents s (handleStopAllBots h env message s).2 →
        (handleStopAllBots h env message s).2.managedBots = stopRunning s.managedBots)) :=
  ⟨fun _ _ => ⟨framed_before _ _ _ (createBot_framed h env n c s),
      framed_after _ _ _ (createBot_framed h env n c s)⟩,
   fun _ _ => ⟨framed_before _ _ _ (startBot_framed h env n s),
      framed_after _ _ _ (startBot_framed h env n s)⟩,
   fun _ _ => ⟨framed_before _ _ _ (stopBot_framed h env n s),
      framed_after _ _ _ (stopBot_framed h env n s)⟩,
   fun _ _ => ⟨framed_before _ _ _ (handleStopAllBots_framed h env message s),
      framed_after _ _ _ (handleStopAllBots_framed h env message s)⟩⟩

/-- C10 as stated fails: when writing `managed_bots.json` rejects, each of
the four operations throws, and the registry in memory is not the one before
the call: `createBot` has added the record, `startBot` has set Running,
`stopBot` and `handleStopAllBots` have set Stopped. -/
theorem failed_save_keeps_change :
    (∃ e, (createBot posixHost saveFails "alpha" "tok123" (initial [] none)).1 = Completion.threw e) ∧
    (createBot posixHost saveFails "alpha" "tok123" (initial [] none)).2.managedBots
      = [sampleBot "alpha" Status.stopped] ∧
    (∃ e, (startBot posixHost saveFails "alpha"
      (initial [sampleBot "alpha" Status.stopped] none)).1 = Completion.threw e) ∧
    (startBot posixHost saveFails "alpha"
      (initial [sampleBot "alpha" Status.stopped] none)).2.managedBots
      = [sampleBot "alpha" Status.running] ∧
    (∃ e, (stopBot posixHost saveFails "alpha"
      (initial [sampleBot "alpha" Status.running] none)).1 = Completion.threw e) ∧
    (stopBot posixHost saveFails "alpha"
      (initial [sampleBot "alpha" Status.running] none)).2.managedBots
      = [sampleBot "alpha" Status.stopped] ∧
    (∃ e, (handleStopAllBots posixHost saveFails (adminMessage "!super stop_all")
      (initial [sampleBot "alpha" Status.running] none)).1 = Completion.threw e) ∧
    (handleStopAllBots posixHost saveFails (adminMessage "!super stop_all")
      (initial [sampleBot "alpha" Status.running] none)).2.managedBots
      = [sampleBot "alpha" Status.stopped] ∧
    [sampleBot "alpha" Status.stopped] ≠ ([] : Entries) ∧
    [sampleBot "alpha" Status.running] ≠ [sampleBot "alpha" Status.stopped] :=
  ⟨⟨_, rfl⟩, by decide, ⟨_, rfl⟩, by decide, ⟨_, rfl⟩, by decide, ⟨_, rfl⟩, by decide,
    by decide, by decide⟩

/-! ## The claims on the command front end -/

/-- C8: `handleCreateBot` with a missing or an empty token fails and leaves
the whole state as it was (no record is inserted, no external call is made,
nothing is saved); for an administrator the error is the one of line 221,
name and token required. -/
theorem handleCreateBot_requires_token (h : Host) (env : Env) (message : Message) (n : String)
    (args : List String) (s : St) (hargs : args = [n] ∨ args = [n, ""]) :
    (∃ e, (handleCreateBot h env message args s).1 = Completion.threw e) ∧
    (handleCreateBot h env message args s).2 = s ∧
    (message.member = some true →
      (handleCreateBot h env message args s).1 = Completion.threw JsError.nameAndTokenRequired) := by
  cases hm : message.member with
  | none =>
    rcases hargs with rfl | rfl <;>
      simp [handleCreateBot, hasAdministrator, hm, bind_run, raise]
  | some admin =>
    cases admin with
    | false =>
      rcases hargs with rfl | rfl <;>
        simp [handleCreateBot, hasAdministrator, hm, bind_run, pure_run, raise]
    | true =>
      rcases hargs with rfl | rfl <;>
        simp [handleCreateBot, hasAdministrator, hm, bind_run, pure_run, raise, truthy]

/-- C7 fails on the code: the definition of `handleStopBot` the class ends
up with (lines 440-451) throws for every message and leaves the state as it
was, a ReferenceError for `PermissionFlagBits` when the message has a member.
So for an administrator and a Running `alpha`, `!super stop_bot alpha` only
sends the failure reply: `alpha` is still Running and nothing is saved.  The
first definition (lines 240-251) stops `alpha` on the same input. -/
theorem handleMessage_stop_bot_fails :
    (∀ (h : Host) (env : Env) (message : Message) (args : List String) (s : St),
      handleStopBot h env message args s =
        (Completion.threw
          (match message.member with
           | none => JsError.typeError "permissions"
           | some _ => JsError.referenceError "PermissionFlagBits"), s)) ∧
    handleMessage posixHost allSucceed (adminMessage "!super stop_bot alpha")
        (initial [sampleBot "alpha" Status.running] none)
      = (Completion.returned (),
          { managedBots := [sampleBot "alpha" Status.running], disk := none,
            trace := [Event.call (Call.reply
              (Reply.failed (JsError.referenceError "PermissionFlagBits"))) true] }) ∧
    (handleStopBotFirst posixHost allSucceed (adminMessage "!super stop_bot alpha") ["alpha"]
        (initial [sampleBot "alpha" Status.running] none)).2.managedBots
      = [sampleBot "alpha" Status.stopped] := by
  refine ⟨?_, by decide, by decide⟩
  intro h env message args s
  cases hm : message.member with
  | none => simp [handleStopBot, hasAdministrator, hm, bind_run, raise]
  | some admin =>
    have hr : resolveIdentifier "PermissionFlagBits"
        = raise (JsError.referenceError "PermissionFlagBits") := by
      simp [resolveIdentifier, moduleBindings]
    simp [handleStopBot, hasAdministrator, hm, bind_run, pure_run, raise, hr]

/-! ## The claim on the round trip -/

/-- C4: let every key of the registry occur once and every record have an
entry path, and let the write and the read of `managed_bots.json` succeed.
Then `saveManagedBots` followed by `loadManagedBots` returns, and the registry
it leaves has the same names, credentials and statuses, each entry path being
the original with every backslash replaced by a forward slash.  Any number of
further cycles leaves exactly the registry and the file of the first cycle,
and no entry path in the file contains a backslash. -/
theorem save_load_round_trip (env : Env) (s : St)
    (hw : env.writeRegistry = none) (hr : env.readRegistry = none)
    (hmap : (keys s.managedBots).Nodup) (hpath : ∀ e ∈ s.managedBots, e.2.filePath.isSome) :
    (saveThenLoad env s).1 = Completion.returned () ∧
    (saveThenLoad env s).2.managedBots.Perm (s.managedBots.map withForwardSlashes) ∧
    (∀ n, mapGet (saveThenLoad env s).2.managedBots n
      = (mapGet s.managedBots n).map
          (fun b => { b with filePath := b.filePath.map normalizeSlashes })) ∧
    (∀ k, (saveLoadCycles env (k + 1) s).1 = Completion.returned () ∧
      (saveLoadCycles env (k + 1) s).2.managedBots = (saveThenLoad env s).2.managedBots ∧
      (saveLoadCycles env (k + 1) s).2.disk = (saveThenLoad env s).2.disk) ∧
    (∃ doc, (saveThenLoad env s).2.disk = some doc ∧
      ∀ e ∈ doc, ∀ p, e.2.filePath = some p → Char.ofNat 92 ∉ p.toList) := by
  have hperm : ((objectOrder s.managedBots).map withForwardSlashes).Perm
      (s.managedBots.map withForwardSlashes) := (objectOrder_perm s.managedBots).map _
  have hk : (keys ((objectOrder s.managedBots).map withForwardSlashes)).Nodup := by
    rw [keys_map_withForwardSlashes]; exact keys_objectOrder_nodup _ hmap
  rw [saveThenLoad_run env s hw hr hmap hpath]
  refine ⟨rfl, hperm, ?_, ?_, ?_⟩
  · intro n
    show mapGet ((objectOrder s.managedBots).map withForwardSlashes) n = _
    rw [mapGet_perm _ _ n hperm hk]
    exact mapGet_map (fun b => { b with filePath := b.filePath.map normalizeSlashes }) s.managedBots n
  · intro k
    exact saveLoadCycles_run env k s hw hr hmap hpath
  · refine ⟨_, rfl, ?_⟩
    intro e he p hp
    obtain ⟨e0, _, rfl⟩ := List.mem_map.mp he
    cases hfp : e0.2.filePath with
    | none => simp [withForwardSlashes, hfp] at hp
    | some q =>
      simp only [withForwardSlashes, hfp, Option.map_some', Option.some.injEq] at hp
      rw [← hp]
      exact normalizeSlashes_no_backslash q

/-! ## Instances of the claims -/

/-- The round trip on a registry with a backslash path and keys out of
property order. -/
theorem save_load_round_trip_witness :
    (saveThenLoad allSucceed (initial mixedRegistry none)).2.managedBots = mixedRegistryStored ∧
    (saveLoadCycles allSucceed 3 (initial mixedRegistry none)).2.managedBots
      = (saveThenLoad allSucceed (initial mixedRegistry none)).2.managedBots :=
  ⟨by decide,
   ((save_load_round_trip allSucceed (initial mixedRegistry none) rfl rfl (by decide)
      (by decide)).2.2.2.1 2).2.1⟩

/-- A start of the Stopped bot `alpha` that succeeds. -/
theorem startBot_contract_witness :
    (startBot posixHost allSucceed "alpha" (initial [sampleBot "alpha" Status.stopped] none)).1
      = Completion.returned () ∧
    ∃ bot, mapGet (startBot posixHost allSucceed "alpha"
        (initial [sampleBot "alpha" Status.stopped] none)).2.managedBots "alpha" = some bot ∧
      bot.status = Status.running :=
  ⟨by decide,
   ((startBot_contract posixHost allSucceed "alpha"
      (initial [sampleBot "alpha" Status.stopped] none) (by decide)).2.2 (by decide)).2.1⟩

/-- A stop of the Running bot `alpha` that succeeds. -/
theorem stopBot_contract_witness :
    (stopBot posixHost allSucceed "alpha" (initial [sampleBot "alpha" Status.running] none)).1
      = Completion.returned () ∧
    ∃ bot, mapGet (stopBot posixHost allSucceed "alpha"
        (initial [sampleBot "alpha" Status.running] none)).2.managedBots "alpha" = some bot ∧
      bot.status = Status.stopped :=
  ⟨by decide,
   ((stopBot_contract posixHost allSucceed "alpha"
      (initial [sampleBot "alpha" Status.running] none) (by decide)).2.2 (by decide)).2.1⟩

/-- The scenario of the empty registry: `createBot('alpha', 'tok123')` leaves
exactly the record of `alpha`, Stopped, with entry path `bots/alpha/index.js`. -/
theorem createBot_contract_witness :
    mapHas ([] : Entries) "alpha" = false ∧
    (createBot posixHost allSucceed "alpha" "tok123" (initial [] none)).2.managedBots =
      [("alpha", { token := "tok123", status := Status.stopped,
                   filePath := some "bots/alpha/index.js" })] :=
  ⟨by decide,
   (createBot_contract posixHost allSucceed "alpha" "tok123" (initial [] none)).2.1
     (by decide) (by decide) (by decide) (by decide)
     ⟨[sampleBot "alpha" Status.stopped], by decide⟩⟩

/-- A stop-all on a registry with a Running unit, and one on a registry
without. -/
theorem handleStopAllBots_contract_witness :
    (handleStopAllBots posixHost allSucceed (adminMessage "!super stop_all")
      (initial mixedRegistry none)).1 = Completion.returned () ∧
    (newEvents (initial mixedRegistry none)
      (handleStopAllBots posixHost allSucceed (adminMessage "!super stop_all")
        (initial mixedRegistry none)).2).count Event.saveInvoked = 1 ∧
    (handleStopAllBots posixHost allSucceed (adminMessage "!super stop_all")
      (initial mixedRegistryStored none)).2.managedBots.map identityOf
      = mixedRegistryStored.map identityOf :=
  ⟨by decide,
   (handleStopAllBots_contract posixHost allSucceed (adminMessage "!super stop_all")
      (initial mixedRegistry none) rfl).2.2.1 ⟨("w", { token := "t1", status := Status.running, filePath := some backslashPath }),
        by decide, by decide⟩,
   (handleStopAllBots_contract posixHost allSucceed (adminMessage "!super stop_all")
      (initial mixedRegistryStored none) rfl).2.1⟩

/-- A start of the Stopped bot `alpha` whose `package.json` is missing. -/
theorem startBot_install_failure_witness :
    mapGet [sampleBot "alpha" Status.stopped] "alpha" = some (sampleBot "alpha" Status.stopped).2 ∧
    manifestAbsent.access ≠ none ∧
    (startBot posixHost manifestAbsent "alpha"
      (initial [sampleBot "alpha" Status.stopped] none)).1
      = Completion.threw (JsError.startFailed "alpha" (JsError.manifestMissing "bots/alpha")) ∧
    (startBot posixHost manifestAbsent "alpha"
      (initial [sampleBot "alpha" Status.stopped] none)).2.managedBots
      = [sampleBot "alpha" Status.stopped] :=
  ⟨by decide, by decide,
   (startBot_install_failure posixHost manifestAbsent "alpha"
      (initial [sampleBot "alpha" Status.stopped] none) (sampleBot "alpha" Status.stopped).2
      "bots/alpha/index.js" (by decide) rfl (by decide)).1 (by decide),
   ((startBot_install_failure posixHost manifestAbsent "alpha"
      (initial [sampleBot "alpha" Status.stopped] none) (sampleBot "alpha" Status.stopped).2
      "bots/alpha/index.js" (by decide) rfl (by decide)).2.2.2 (Or.inl (by decide))).2.1⟩

/-- The command `create_bot alpha` without a token, and with an empty one. -/
theorem handleCreateBot_requires_token_witness :
    (handleCreateBot posixHost allSucceed (adminMessage "!super create_bot alpha") ["alpha"]
      (initial [] none)).1 = Completion.threw JsError.nameAndTokenRequired ∧
    (handleCreateBot posixHost allSucceed (adminMessage "!super create_bot alpha ") ["alpha", ""]
      (initial [] none)).2 = initial [] none :=
  ⟨(handleCreateBot_requires_token posixHost allSucceed (adminMessage "!super create_bot alpha")
      "alpha" ["alpha"] (initial [] none) (Or.inl rfl)).2.2 rfl,
   (handleCreateBot_requires_token posixHost allSucceed (adminMessage "!super create_bot alpha ")
      "alpha" ["alpha", ""] (initial [] none) (Or.inr rfl)).2.1⟩

/-- The external calls of `createBot('alpha', 'tok123')` on a POSIX host. -/
theorem createBot_scaffold_in_template_witness :
    (createBot posixHost allSucceed "alpha" "tok123" (initial [] none)).1 = Completion.returned () ∧
    ∃ doc, newEvents (initial [] none)
        (createBot posixHost allSucceed "alpha" "tok123" (initial [] none)).2 =
      [Event.call (Call.cp (posixHost.join ["bots", "az"]) (posixHost.join ["bots", "alpha"])) true,
       Event.call (Call.mkdir (posixHost.join ["bots", "az", "bots"])) true,
       Event.call (Call.writeFile (posixHost.join [posixHost.join ["bots", "az", "bots"], "index.js"])
         Content.scaffold) true,
       Event.call (Call.readFile (posixHost.join [posixHost.join ["bots", "alpha"], "config.json"])) true,
       Event.call (Call.writeFile (posixHost.join [posixHost.join ["bots", "alpha"], "config.json"])
         (Content.config "tok123")) true,
       Event.saveInvoked,
       Event.call (registryWrite doc) true,
       Event.call (Call.reply (Reply.created "alpha")) true] :=
  ⟨by decide,
   (createBot_scaffold_in_template posixHost allSucceed "alpha" "tok123" (initial [] none)
      (by decide)).1⟩

/-- Each operation failing before the save, and failing in the save. -/
theorem failure_keeps_registry_before_save_witness :
    (createBot posixHost copyFails "alpha" "tok123" (initial [] none)).2.managedBots = [] ∧
    (createBot posixHost saveFails "alpha" "tok123" (initial [] none)).2.managedBots
      = [] ++ [newRecord posixHost "alpha" "tok123"] ∧
    (startBot posixHost manifestAbsent "alpha"
      (initial [sampleBot "alpha" Status.stopped] none)).2.managedBots
      = [sampleBot "alpha" Status.stopped] ∧
    (startBot posixHost saveFails "alpha"
      (initial [sampleBot "alpha" Status.stopped] none)).2.managedBots
      = assignStatus [sampleBot "alpha" Status.stopped] "alpha" Status.running ∧
    (stopBot posixHost allSucceed "alpha"
      (initial [sampleBot "alpha" Status.stopped] none)).2.managedBots
      = [sampleBot "alpha" Status.stopped] ∧
    (stopBot posixHost saveFails "alpha"
      (initial [sampleBot "alpha" Status.running] none)).2.managedBots
      = assignStatus [sampleBot "alpha" Status.running] "alpha" Status.stopped ∧
    (handleStopAllBots posixHost allSucceed
      { content := "!super stop_all", authorBot := false, member := some false }
      (initial [sampleBot "alpha" Status.running] none)).2.managedBots
      = [sampleBot "alpha" Status.running] ∧
    (handleStopAllBots posixHost saveFails (adminMessage "!super stop_all")
      (initial [sampleBot "alpha" Status.running] none)).2.managedBots
      = stopRunning [sampleBot "alpha" Status.running] :=
  ⟨((failure_keeps_registry_before_save posixHost copyFails "alpha" "tok123"
      (adminMessage "") (initial [] none)).1 _ rfl).1 (by decide),
   ((failure_keeps_registry_before_save posixHost saveFails "alpha" "tok123"
      (adminMessage "") (initial [] none)).1 _ rfl).2 (by decide),
   ((failure_keeps_registry_before_save posixHost manifestAbsent "alpha" "tok123"
      (adminMessage "") (initial [sampleBot "alpha" Status.stopped] none)).2.1 _ rfl).1 (by decide),
   ((failure_keeps_registry_before_save posixHost saveFails "alpha" "tok123"
      (adminMessage "") (initial [sampleBot "alpha" Status.stopped] none)).2.1 _ rfl).2 (by decide),
   ((failure_keeps_registry_before_save posixHost allSucceed "alpha" "tok123"
      (adminMessage "") (initial [sampleBot "alpha" Status.stopped] none)).2.2.1 _ rfl).1 (by decide),
   ((failure_keeps_registry_before_save posixHost saveFails "alpha" "tok123"
      (adminMessage "") (initial [sampleBot "alpha" Status.running] none)).2.2.1 _ rfl).2 (by decide),
   ((failure_keeps_registry_before_save posixHost allSucceed "alpha" "tok123"
      { content := "!super stop_all", authorBot := false, member := some false }
      (initial [sampleBot "alpha" Status.running] none)).2.2.2 _ rfl).1 (by decide),
   ((failure_keeps_registry_before_save posixHost saveFails "alpha" "tok123"
      (adminMessage "!super stop_all")
      (initial [sampleBot "alpha" Status.running] none)).2.2.2 _ rfl).2 (by decide)⟩

end BotSupervisor
